import Mathlib

/-!
Verification of the webhook subsystem of the delivery-tracker repository.

The development shallowly embeds the TypeScript sources:

* `TrackingMonitorJob` (change detection and delivery enqueueing),
* `WebhookDeliveryJob` (HTTP delivery, retry classification, deactivation),
* `TrackingCache` (bounded TTL cache with oldest-entry eviction),
* `WebhookRepository.updateWebhook` (error classification),
* `WebhookValidator` / `WebhookService.registerWebhook` (input validation).

JavaScript runtime behaviour that the code relies on (JSON.stringify with a
replacer, Map serialization, insertion-ordered maps) is modelled explicitly.
Time is an explicit natural-number parameter (milliseconds), store and queue
effects are reified as traces, and machine arithmetic is plain Nat/Int.
-/

set_option maxHeartbeats 1000000
set_option maxRecDepth 8192

namespace DeliveryTracker

/-! ## JSON value model

JavaScript values reachable from a serialized `TrackInfo`.  `jobj` keeps the
insertion order of a plain object; `jmap` is a JS `Map` (used by the carrier
core only for `carrierSpecificData`), which `JSON.stringify` renders as the
empty object because a `Map` has no enumerable own properties. -/

inductive JVal where
  | jnull : JVal
  | jbool : Bool → JVal
  | jnum : Int → JVal
  | jstr : String → JVal
  | jarr : List JVal → JVal
  | jobj : List (String × JVal) → JVal
  | jmap : List (String × String) → JVal

open JVal

/-- Lexicographic comparison of character lists, mirroring the default string
sort used by `Object.keys(value).sort()` for the key sets that occur here. -/
def charListLe : List Char → List Char → Bool
  | [], _ => true
  | _ :: _, [] => false
  | a :: as, b :: bs =>
    if a < b then true
    else if b < a then false
    else charListLe as bs

def strLe (a b : String) : Bool := charListLe a.data b.data

def strLeRel : String → String → Prop := fun a b => strLe a b = true

instance : DecidableRel strLeRel := fun a b => inferInstanceAs (Decidable (_ = true))

/-- Order on object entries by key, for sorting a JSON object's fields. -/
def keyLe (p q : String × JVal) : Prop := strLe p.1 q.1 = true

instance : DecidableRel keyLe := fun p q => inferInstanceAs (Decidable (_ = true))

/-- JS property access `value[key]` for the keys produced by `Object.keys`;
the default is never reached on well-formed objects. -/
def lookupD (k : String) : List (String × JVal) → JVal
  | [] => jnull
  | (k₁, v) :: t => if k₁ = k then v else lookupD k t

def lookupD_sizeOf_le (k : String) (l : List (String × JVal)) :
    sizeOf (lookupD k l) ≤ sizeOf l := by
  induction l with
  | nil => simp [lookupD]
  | cons p t ih =>
    obtain ⟨k₁, v⟩ := p
    by_cases h : k₁ = k
    · simp only [lookupD, h, if_pos]
      simp only [List.cons.sizeOf_spec, Prod.mk.sizeOf_spec]
      omega
    · simp only [lookupD, h, if_neg, not_false_iff]
      simp only [List.cons.sizeOf_spec, Prod.mk.sizeOf_spec]
      omega

def escapeChar (c : Char) : String :=
  if c = '"' then "\\\"" else if c = '\\' then "\\\\" else String.singleton c

/-- JSON string quoting as performed by `JSON.stringify`. -/
def quoteStr (s : String) : String :=
  "\"" ++ String.join (s.data.map escapeChar) ++ "\""

mutual

/-- Serialization of a value by `JSON.stringify(v)` with no replacer: object
fields keep insertion order, a `Map` serializes as the empty object. -/
def stringifyPlain : JVal → String
  | jnull => "null"
  | jbool b => if b then "true" else "false"
  | jnum n => toString n
  | jstr s => quoteStr s
  | jarr xs => "[" ++ String.intercalate "," (stringifyPlainList xs) ++ "]"
  | jobj l => "\x7b" ++ String.intercalate "," (stringifyPlainEntries l) ++ "\x7d"
  | jmap _ => "\x7b\x7d"

def stringifyPlainList : List JVal → List String
  | [] => []
  | x :: xs => stringifyPlain x :: stringifyPlainList xs

def stringifyPlainEntries : List (String × JVal) → List String
  | [] => []
  | (k, v) :: t => (quoteStr k ++ ":" ++ stringifyPlain v) :: stringifyPlainEntries t

end

/-- The key list of an object, sorted, as computed by `Object.keys(value).sort()`
in `TrackingMonitorJob.computeChecksum`. -/
def sortedKeysOf (l : List (String × JVal)) : List String :=
  List.insertionSort strLeRel (l.map Prod.fst)

/-- Serialization of a value by `JSON.stringify(v, replacer)` where `replacer`
is the key-sorting function of `TrackingMonitorJob.computeChecksum`: every
plain object is replaced by a copy whose keys are sorted (built from
`Object.keys(value).sort()` and property lookups), a `Map` — having no
enumerable keys — collapses to the empty object, and the replacer is applied
recursively to every serialized value. -/
def stringifySorted : JVal → String
  | jnull => "null"
  | jbool b => if b then "true" else "false"
  | jnum n => toString n
  | jstr s => quoteStr s
  | jarr xs =>
    "[" ++ String.intercalate "," (xs.attach.map (fun x => stringifySorted x.1)) ++ "]"
  | jobj l =>
    "\x7b" ++ String.intercalate ","
      ((sortedKeysOf l).map (fun k => quoteStr k ++ ":" ++ stringifySorted (lookupD k l))) ++ "\x7d"
  | jmap _ => "\x7b\x7d"
termination_by v => sizeOf v
decreasing_by
  · have := List.sizeOf_lt_of_mem x.2
    simp only [jarr.sizeOf_spec]
    omega
  · have := lookupD_sizeOf_le k l
    simp only [jobj.sizeOf_spec]
    omega

mutual

/-- Canonical form of a JSON value: object keys sorted lexicographically at
every depth (the normal form the specification describes for the checksum
basis).  Two values are equal up to reordering of object keys exactly when
their canonical forms coincide. -/
def canon : JVal → JVal
  | jnull => jnull
  | jbool b => jbool b
  | jnum n => jnum n
  | jstr s => jstr s
  | jarr xs => jarr (canonList xs)
  | jobj l => jobj (List.insertionSort keyLe (canonEntries l))
  | jmap es => jmap es

def canonList : List JVal → List JVal
  | [] => []
  | x :: xs => canon x :: canonList xs

def canonEntries : List (String × JVal) → List (String × JVal)
  | [] => []
  | (k, v) :: t => (k, canon v) :: canonEntries t

end

mutual

/-- Replace the contents of every JS `Map` (every `carrierSpecificData`) by the
empty map, leaving all other data unchanged.  Two values agree after `scrub`
exactly when they differ only in their `carrierSpecificData` maps. -/
def scrub : JVal → JVal
  | jnull => jnull
  | jbool b => jbool b
  | jnum n => jnum n
  | jstr s => jstr s
  | jarr xs => jarr (scrubList xs)
  | jobj l => jobj (scrubEntries l)
  | jmap _ => jmap []

def scrubList : List JVal → List JVal
  | [] => []
  | x :: xs => scrub x :: scrubList xs

def scrubEntries : List (String × JVal) → List (String × JVal)
  | [] => []
  | (k, v) :: t => (k, scrub v) :: scrubEntries t

end

def nodupKeys : List String → Bool
  | [] => true
  | k :: t => (!t.contains k) && nodupKeys t

mutual

/-- Well-formedness of a JSON value as produced by a JS runtime: every plain
object has pairwise distinct keys (a JS object cannot hold duplicate keys). -/
def wfB : JVal → Bool
  | jnull => true
  | jbool _ => true
  | jnum _ => true
  | jstr _ => true
  | jarr xs => wfBList xs
  | jobj l => nodupKeys (l.map Prod.fst) && wfBEntries l
  | jmap _ => true

def wfBList : List JVal → Bool
  | [] => true
  | x :: xs => wfB x && wfBList xs

def wfBEntries : List (String × JVal) → Bool
  | [] => true
  | (_, v) :: t => wfB v && wfBEntries t

end

/-- Structural induction for `JVal` with member hypotheses for the nested
lists, packaged as a definition so it can serve later proofs. -/
def jvalInduction (P : JVal → Prop)
    (hnull : P jnull) (hbool : ∀ b, P (jbool b)) (hnum : ∀ n, P (jnum n))
    (hstr : ∀ s, P (jstr s)) (hmapc : ∀ es, P (jmap es))
    (harr : ∀ xs, (∀ x ∈ xs, P x) → P (jarr xs))
    (hobj : ∀ l, (∀ p ∈ l, P p.2) → P (jobj l)) : ∀ v, P v
  | jnull => hnull
  | jbool b => hbool b
  | jnum n => hnum n
  | jstr s => hstr s
  | jmap es => hmapc es
  | jarr xs => harr xs (fun x hx =>
      jvalInduction P hnull hbool hnum hstr hmapc harr hobj x)
  | jobj l => hobj l (fun p hp =>
      jvalInduction P hnull hbool hnum hstr hmapc harr hobj p.2)
termination_by v => sizeOf v
decreasing_by
  · have := List.sizeOf_lt_of_mem hx
    simp only [jarr.sizeOf_spec]
    omega
  · have := List.sizeOf_lt_of_mem hp
    have hps : sizeOf p.2 < sizeOf p := by
      obtain ⟨a, b⟩ := p
      simp only [Prod.mk.sizeOf_spec]
      omega
    simp only [jobj.sizeOf_spec]
    omega

/-! ## SHA-256

The monitor's checksum is `createHash("sha256").update(s).digest("hex")` over
the UTF-8 bytes of the canonical event JSON.  The hash is implemented here
directly over `Nat` with explicit reduction modulo `2 ^ 32`. -/

def rotr32 (n x : Nat) : Nat := ((x >>> n) ||| (x <<< (32 - n))) % 4294967296

def shaCh (e f g : Nat) : Nat := (e &&& f) ^^^ ((e ^^^ 4294967295) &&& g)

def shaMaj (a b c : Nat) : Nat := (a &&& b) ^^^ (a &&& c) ^^^ (b &&& c)

def sSig0 (x : Nat) : Nat := rotr32 7 x ^^^ rotr32 18 x ^^^ (x >>> 3)

def sSig1 (x : Nat) : Nat := rotr32 17 x ^^^ rotr32 19 x ^^^ (x >>> 10)

def bSig0 (x : Nat) : Nat := rotr32 2 x ^^^ rotr32 13 x ^^^ rotr32 22 x

def bSig1 (x : Nat) : Nat := rotr32 6 x ^^^ rotr32 11 x ^^^ rotr32 25 x

def shaK : List Nat :=
  [1116352408, 1899447441, 3049323471, 3921009573, 961987163,
   1508970993, 2453635748, 2870763221, 3624381080, 310598401,
   607225278, 1426881987, 1925078388, 2162078206, 2614888103,
   3248222580, 3835390401, 4022224774, 264347078, 604807628,
   770255983, 1249150122, 1555081692, 1996064986, 2554220882,
   2821834349, 2952996808, 3210313671, 3336571891, 3584528711,
   113926993, 338241895, 666307205, 773529912, 1294757372,
   1396182291, 1695183700, 1986661051, 2177026350, 2456956037,
   2730485921, 2820302411, 3259730800, 3345764771, 3516065817,
   3600352804, 4094571909, 275423344, 430227734, 506948616,
   659060556, 883997877, 958139571, 1322822218, 1537002063,
   1747873779, 1955562222, 2024104815, 2227730452, 2361852424,
   2428436474, 2756734187, 3204031479, 3329325298]

structure Sha256State where
  h0 : Nat
  h1 : Nat
  h2 : Nat
  h3 : Nat
  h4 : Nat
  h5 : Nat
  h6 : Nat
  h7 : Nat

def initialSha : Sha256State :=
  ⟨1779033703, 3144134277, 1013904242, 2773480762,
   1359893119, 2600822924, 528734635, 1541459225⟩

/-- UTF-8 encoding of one character as a byte list. -/
def utf8Bytes (c : Char) : List Nat :=
  let n := c.toNat
  if n < 128 then [n]
  else if n < 2048 then [192 + n / 64, 128 + n % 64]
  else if n < 65536 then [224 + n / 4096, 128 + (n / 64) % 64, 128 + n % 64]
  else [240 + n / 262144, 128 + (n / 4096) % 64, 128 + (n / 64) % 64, 128 + n % 64]

def strBytes (s : String) : List Nat := (s.data.map utf8Bytes).flatten

def lenBytesBE (n k : Nat) : List Nat :=
  (List.range k).map (fun i => (n >>> (8 * (k - 1 - i))) % 256)

def padMessage (msg : List Nat) : List Nat :=
  let len := msg.length
  let zeros := (119 - (len % 64)) % 64
  msg ++ [128] ++ List.replicate zeros 0 ++ lenBytesBE (8 * len) 8

def bytesToWords (chunk : List Nat) : List Nat :=
  (List.range 16).map (fun i =>
    chunk.getD (4 * i) 0 * 16777216 + chunk.getD (4 * i + 1) 0 * 65536 +
    chunk.getD (4 * i + 2) 0 * 256 + chunk.getD (4 * i + 3) 0)

def extendWords (ws : List Nat) : List Nat :=
  (List.range 48).foldl (fun a _ =>
    let i := a.length
    a ++ [(a.getD (i - 16) 0 + sSig0 (a.getD (i - 15) 0) + a.getD (i - 7) 0 +
           sSig1 (a.getD (i - 2) 0)) % 4294967296]) ws

def shaRound (t : Sha256State) (kw : Nat × Nat) : Sha256State :=
  let t1 := (t.h7 + bSig1 t.h4 + shaCh t.h4 t.h5 t.h6 + kw.1 + kw.2) % 4294967296
  let t2 := (bSig0 t.h0 + shaMaj t.h0 t.h1 t.h2) % 4294967296
  ⟨(t1 + t2) % 4294967296, t.h0, t.h1, t.h2, (t.h3 + t1) % 4294967296, t.h4, t.h5, t.h6⟩

def shaCompress (st : Sha256State) (chunk : List Nat) : Sha256State :=
  let w := extendWords (bytesToWords chunk)
  let r := (shaK.zip w).foldl shaRound st
  ⟨(st.h0 + r.h0) % 4294967296, (st.h1 + r.h1) % 4294967296,
   (st.h2 + r.h2) % 4294967296, (st.h3 + r.h3) % 4294967296,
   (st.h4 + r.h4) % 4294967296, (st.h5 + r.h5) % 4294967296,
   (st.h6 + r.h6) % 4294967296, (st.h7 + r.h7) % 4294967296⟩

def chunksOf64 : List Nat → List (List Nat)
  | [] => []
  | a :: as => (a :: as).take 64 :: chunksOf64 ((a :: as).drop 64)
termination_by l => l.length
decreasing_by
  simp only [List.length_drop, List.length_cons]
  omega

def hexDigit (n : Nat) : Char :=
  if n < 10 then Char.ofNat (48 + n) else Char.ofNat (87 + n)

def hexWord (x : Nat) : List Char :=
  (List.range 8).map (fun i => hexDigit ((x >>> (4 * (7 - i))) % 16))

def sha256Hex (bytes : List Nat) : String :=
  let st := (chunksOf64 (padMessage bytes)).foldl shaCompress initialSha
  String.mk (hexWord st.h0 ++ hexWord st.h1 ++ hexWord st.h2 ++ hexWord st.h3 ++
             hexWord st.h4 ++ hexWord st.h5 ++ hexWord st.h6 ++ hexWord st.h7)

def sha256HexOfString (s : String) : String := sha256Hex (strBytes s)

/-! ## TrackInfo -/

/-- Modelled from the spec: the carrier core package
(the `TrackInfo` interface of the carrier registry) is not among the sources;
per the spec's data model and design notes, a `TrackInfo` carries an ordered
`events` sequence, `sender` and `recipient` contacts, and a `Map`-valued
`carrierSpecificData` (string keys and values); nested events, statuses,
locations and contacts also hold `Map`-valued `carrierSpecificData`, which
appear inside `events` as `jmap` nodes. -/
structure TrackInfo where
  events : List JVal
  sender : JVal
  recipient : JVal
  carrierSpecificData : List (String × String)

/-- The value `JSON.stringify(trackInfo)` serializes, in insertion order of
the callback body shape documented by the spec. -/
def TrackInfo.toJVal (t : TrackInfo) : JVal :=
  jobj [("events", jarr t.events), ("sender", t.sender), ("recipient", t.recipient),
        ("carrierSpecificData", jmap t.carrierSpecificData)]

/-- Replace every `carrierSpecificData` `Map` in the `TrackInfo` (top level or
nested anywhere inside events, sender or recipient) by the empty map. -/
def TrackInfo.scrubData (t : TrackInfo) : TrackInfo :=
  ⟨t.events.map scrub, scrub t.sender, scrub t.recipient, []⟩

/-- `TrackingMonitorJob.computeChecksum`: SHA-256 hex digest of
`JSON.stringify(trackInfo.events, sortKeysReplacer)`. -/
def TrackingMonitorJob.computeChecksum (t : TrackInfo) : String :=
  sha256HexOfString (stringifySorted (jarr t.events))

/-! ## Tracking cache

`TrackingCache` from the sources: a JS `Map` from `carrierId:trackingNumber`
to an entry holding a `TrackInfo` and its insertion timestamp.  A JS `Map` is
insertion-ordered and updating an existing key keeps its position, so the map
is modelled as an association list with in-place value replacement. -/

structure CacheEntry where
  data : TrackInfo
  timestamp : Nat

def mapGet : List (String × CacheEntry) → String → Option CacheEntry
  | [], _ => none
  | (k₁, v) :: t, k => if k₁ = k then some v else mapGet t k

def mapSet : List (String × CacheEntry) → String → CacheEntry → List (String × CacheEntry)
  | [], k, v => [(k, v)]
  | (k₁, v₁) :: t, k, v => if k₁ = k then (k₁, v) :: t else (k₁, v₁) :: mapSet t k v

def mapDelete : List (String × CacheEntry) → String → List (String × CacheEntry)
  | [], _ => []
  | (k₁, v₁) :: t, k => if k₁ = k then t else (k₁, v₁) :: mapDelete t k

structure TrackingCache where
  ttl : Nat
  maxSize : Nat
  entries : List (String × CacheEntry)

def buildKey (carrierId trackingNumber : String) : String :=
  carrierId ++ ":" ++ trackingNumber

/-- `TrackingCache.get`: return the entry when present and not expired; delete
and miss when the age exceeds the TTL.  `now` is the explicit `Date.now()`
and the second component is the cache state after the call. -/
def TrackingCache.get (c : TrackingCache) (now : Nat)
    (carrierId trackingNumber : String) : Option TrackInfo × TrackingCache :=
  let key := buildKey carrierId trackingNumber
  match mapGet c.entries key with
  | none => (none, c)
  | some entry =>
    let age := now - entry.timestamp
    if age > c.ttl then (none, { c with entries := mapDelete c.entries key })
    else (some entry.data, c)

/-- One step of the `evictOldest` scan: keep the entry with the strictly
smallest timestamp seen so far (ties keep the earlier entry, matching the
strict `<` comparison against an accumulator that starts at `Infinity`). -/
def oldestStep (acc : Option (String × Nat)) (e : String × CacheEntry) : Option (String × Nat) :=
  match acc with
  | none => some (e.1, e.2.timestamp)
  | some (k₀, t₀) => if e.2.timestamp < t₀ then some (e.1, e.2.timestamp) else some (k₀, t₀)

/-- The scan of `TrackingCache.evictOldest`: first entry in iteration order
with a strictly smaller timestamp than all earlier ones. -/
def findOldest (m : List (String × CacheEntry)) : Option (String × Nat) :=
  m.foldl oldestStep none

def TrackingCache.evictOldest (c : TrackingCache) : TrackingCache :=
  match findOldest c.entries with
  | none => c
  | some (k, _) => { c with entries := mapDelete c.entries k }

/-- `TrackingCache.set`: when the current size is already at or above
`maxSize`, evict the oldest entry first, then insert or replace. -/
def TrackingCache.set (c : TrackingCache) (now : Nat)
    (carrierId trackingNumber : String) (data : TrackInfo) : TrackingCache :=
  let c₁ := if c.entries.length ≥ c.maxSize then c.evictOldest else c
  { c₁ with entries := mapSet c₁.entries (buildKey carrierId trackingNumber) ⟨data, now⟩ }

def TrackingCache.invalidate (c : TrackingCache) (carrierId trackingNumber : String) :
    TrackingCache :=
  { c with entries := mapDelete c.entries (buildKey carrierId trackingNumber) }

def TrackingCache.clearAll (c : TrackingCache) : TrackingCache :=
  { c with entries := [] }

def TrackingCache.cleanup (c : TrackingCache) (now : Nat) : TrackingCache :=
  { c with entries := c.entries.filter (fun e => decide (now - e.2.timestamp ≤ c.ttl)) }

/-! ## Registration store records -/

structure WebhookRegistration where
  id : String
  carrierId : String
  trackingNumber : String
  callbackUrl : String
  expirationTime : Nat
  active : Bool
  lastChecksum : Option String
  lastCheckedAt : Option Nat
  deliveryAttempts : Nat
  lastDeliveryAt : Option Nat
  lastError : Option String

/-- `UpdateWebhookInput`: a partial patch; `none` models a field that is
absent or explicitly `undefined`, which Prisma leaves untouched. -/
structure UpdateWebhookInput where
  lastChecksum : Option String := none
  lastCheckedAt : Option Nat := none
  deliveryAttempts : Option Nat := none
  lastDeliveryAt : Option Nat := none
  lastError : Option String := none
  active : Option Bool := none

def applyUpdate (w : WebhookRegistration) (input : UpdateWebhookInput) : WebhookRegistration :=
  { w with
    lastChecksum := match input.lastChecksum with | some s => some s | none => w.lastChecksum
    lastCheckedAt := match input.lastCheckedAt with | some t => some t | none => w.lastCheckedAt
    deliveryAttempts := input.deliveryAttempts.getD w.deliveryAttempts
    lastDeliveryAt := match input.lastDeliveryAt with | some t => some t | none => w.lastDeliveryAt
    lastError := match input.lastError with | some e => some e | none => w.lastError
    active := input.active.getD w.active }

inductive WebhookError where
  | validation (msg : String)
  | notFound (id : String)
  | delivery (msg : String) (statusCode : Option Nat)
  | generic (msg : String)

def WebhookRepository.findWebhookById (db : List WebhookRegistration) (id : String) :
    Option WebhookRegistration :=
  db.find? (fun w => w.id == id)

/-- `WebhookRepository.updateWebhook`: the Prisma `update` call throws when no
row with the id exists and also on any storage failure (modelled by
`storageFault`); the surrounding catch block converts every such error into
`WebhookNotFoundError`. -/
def WebhookRepository.updateWebhook (db : List WebhookRegistration) (id : String)
    (input : UpdateWebhookInput) (storageFault : Bool) :
    Except WebhookError (List WebhookRegistration) :=
  if storageFault ∨ (WebhookRepository.findWebhookById db id).isNone then
    .error (.notFound id)
  else
    .ok (db.map (fun w => if w.id == id then applyUpdate w input else w))

/-! ## Monitor worker -/

structure TrackingMonitorJobData where
  webhookRegistrationId : String
  carrierId : String
  trackingNumber : String

structure WebhookDeliveryJobData where
  webhookRegistrationId : String
  callbackUrl : String
  trackInfo : String
  previousChecksum : Option String
  currentChecksum : String

/-- Reified store/queue effects of one monitor invocation, in program order. -/
inductive MonitorEffect where
  | removeMonitorJob (id : String)
  | updateWebhook (id : String) (patch : UpdateWebhookInput)
  | cacheSet (carrierId trackingNumber : String) (t : TrackInfo)
  | enqueueDelivery (d : WebhookDeliveryJobData)

/-- Environment of one monitor invocation: the registration found in the
store, the current time, the carrier-registry lookup result, the cache lookup
result, the outcome of `carrier.track` on a cache miss, and whether
`addWebhookDeliveryJob` raises (`some msg`) or succeeds (`none`). -/
structure MonitorEnv where
  webhook : Option WebhookRegistration
  now : Nat
  carrierKnown : Bool
  cacheResult : Option TrackInfo
  trackResult : Except String TrackInfo
  enqueueFail : Option String

/-- Tail of `TrackingMonitorJob.process` from the checksum computation on;
`pre` holds the effects already performed (a cache write on a miss). -/
def monitorTail (jd : TrackingMonitorJobData) (env : MonitorEnv)
    (pre : List MonitorEffect) (trackInfo : TrackInfo) (w : WebhookRegistration) :
    List MonitorEffect × Bool :=
  let currentChecksum := TrackingMonitorJob.computeChecksum trackInfo
  let unchanged := match w.lastChecksum with
    | some s => (s != "") && (s == currentChecksum)
    | none => false
  if unchanged then
    (pre ++ [.updateWebhook jd.webhookRegistrationId { lastCheckedAt := some env.now }], false)
  else
    match env.enqueueFail with
    | some msg =>
      (pre ++ [.updateWebhook jd.webhookRegistrationId
        { lastCheckedAt := some env.now,
          lastError := some ("Job processing error: " ++ msg) }], true)
    | none =>
      (pre ++
        [.enqueueDelivery ⟨jd.webhookRegistrationId, w.callbackUrl,
           stringifyPlain trackInfo.toJVal, w.lastChecksum, currentChecksum⟩,
         .updateWebhook jd.webhookRegistrationId
           { lastChecksum := some currentChecksum, lastCheckedAt := some env.now }], false)

/-- `TrackingMonitorJob.process`: one invocation, returning the effect trace
and whether the invocation re-raised (so that the queue retries it). -/
def TrackingMonitorJob.process (jd : TrackingMonitorJobData) (env : MonitorEnv) :
    List MonitorEffect × Bool :=
  match env.webhook with
  | none => ([.removeMonitorJob jd.webhookRegistrationId], false)
  | some w =>
    if ¬ w.active then ([.removeMonitorJob jd.webhookRegistrationId], false)
    else if env.now > w.expirationTime then
      ([.updateWebhook jd.webhookRegistrationId { active := some false },
        .removeMonitorJob jd.webhookRegistrationId], false)
    else if ¬ env.carrierKnown then
      ([.updateWebhook jd.webhookRegistrationId
         { lastError := some ("Carrier not found: " ++ jd.carrierId),
           lastCheckedAt := some env.now }], false)
    else
      match env.cacheResult with
      | some trackInfo => monitorTail jd env [] trackInfo w
      | none =>
        match env.trackResult with
        | .error msg =>
          ([.updateWebhook jd.webhookRegistrationId
             { lastCheckedAt := some env.now,
               lastError := some ("Tracking API error: " ++ msg) }], false)
        | .ok trackInfo =>
          monitorTail jd env [.cacheSet jd.carrierId jd.trackingNumber trackInfo] trackInfo w

/-! ## Delivery worker -/

inductive HttpResult where
  | response (status : Nat) (body : Option String)
  | networkError (msg : String)

structure DeliveryLogInput where
  webhookRegistrationId : String
  attemptNumber : Nat
  statusCode : Option Nat
  success : Bool
  errorMessage : Option String
  requestBody : String
  responseBody : Option String

/-- Observable result of one delivery invocation: the appended delivery log,
the patch passed to `updateWebhook` in the finally block, and whether the
handler re-raised for a queue retry. -/
structure DeliveryStep where
  log : DeliveryLogInput
  patch : UpdateWebhookInput
  raised : Bool

def WebhookDeliveryJob.shouldRetry (statusCode attemptNumber : Nat) : Bool :=
  if attemptNumber ≥ 4 then false
  else if 500 ≤ statusCode ∧ statusCode < 600 then true
  else if 400 ≤ statusCode ∧ statusCode < 500 then
    if statusCode = 400 ∨ statusCode = 401 ∨ statusCode = 403 ∨ statusCode = 404 then false
    else decide (attemptNumber < 2)
  else false

/-- Environment of one delivery invocation: the queue's attempt counter, the
parsed `trackInfo` job payload, the ISO timestamp taken at body construction,
and the outcome of the HTTP POST. -/
structure DeliveryEnv where
  attemptsMade : Nat
  trackingData : JVal
  deliveredAtIso : String
  http : HttpResult

/-- The JSON request body the delivery worker builds and posts: `webhookId`,
the parsed tracking data, and the checksum metadata; an absent
`previousChecksum` is `undefined` and is omitted by `JSON.stringify`. -/
def deliveryRequestBody (jd : WebhookDeliveryJobData) (td : JVal) (iso : String) : String :=
  stringifyPlain (jobj
    [("webhookId", jstr jd.webhookRegistrationId),
     ("trackingData", td),
     ("metadata", jobj
       ((match jd.previousChecksum with
         | some p => [("previousChecksum", jstr p)]
         | none => []) ++
        [("currentChecksum", jstr jd.currentChecksum),
         ("deliveredAt", jstr iso)]))])

/-- `WebhookDeliveryJob.process`: one invocation. -/
def WebhookDeliveryJob.process (jd : WebhookDeliveryJobData) (env : DeliveryEnv) :
    DeliveryStep :=
  let attemptNumber := env.attemptsMade + 1
  let requestBody := deliveryRequestBody jd env.trackingData env.deliveredAtIso
  let failedAfter := fun (m : String) =>
    "Delivery failed after " ++ toString attemptNumber ++ " attempts: " ++ m
  let attemptFailed := fun (m : String) =>
    "Delivery attempt " ++ toString attemptNumber ++ " failed: " ++ m
  match env.http with
  | .response status body =>
    if 200 ≤ status ∧ status < 300 then
      { log := ⟨jd.webhookRegistrationId, attemptNumber, some status, true, none,
                requestBody, body.map (fun b => b.take 1000)⟩,
        patch := {},
        raised := false }
    else
      let errorMessage := "HTTP " ++ toString status ++ ": " ++
        (match body with | some b => b.take 200 | none => "undefined")
      let retry := WebhookDeliveryJob.shouldRetry status attemptNumber
      { log := ⟨jd.webhookRegistrationId, attemptNumber, some status, false,
                some errorMessage, requestBody, body.map (fun b => b.take 1000)⟩,
        patch :=
          if attemptNumber ≥ 4 then
            { active := some false, lastError := some (failedAfter errorMessage) }
          else { lastError := some (attemptFailed errorMessage) },
        raised := retry }
  | .networkError msg =>
    let errorMessage := "Request failed: " ++ msg
    { log := ⟨jd.webhookRegistrationId, attemptNumber, none, false, some errorMessage,
              requestBody, none⟩,
      patch :=
        if attemptNumber ≥ 4 then
          { active := some false, lastError := some (failedAfter errorMessage) }
        else { lastError := some (attemptFailed errorMessage) },
      raised := decide (attemptNumber < 4) }

/-! ## Validator and service facade -/

structure URLParts where
  protocol : String
  hostname : String

/-- The JS `hostname.startsWith(pre)` textual prefix test. -/
def strStartsWith (s pre : String) : Bool := List.isPrefixOf pre.data s.data

/-- Split a character sequence at the first occurrence of `://`. -/
def splitScheme : List Char → Option (List Char × List Char)
  | [] => none
  | ':' :: '/' :: '/' :: rest => some ([], rest)
  | c :: rest =>
    match splitScheme rest with
    | none => none
    | some (pre, post) => some (c :: pre, post)

/-- Model of the WHATWG URL parser (the `new URL(...)` constructor) restricted
to the ordinary absolute forms relevant here: a nonempty scheme before
`://`, then a hostname delimited by port, path, query or fragment. -/
def parseUrl (s : String) : Option URLParts :=
  match splitScheme s.data with
  | none => none
  | some (schemeChars, restChars) =>
    if schemeChars = [] ∨ restChars = [] then none
    else
      let hostPort := restChars.takeWhile (fun c => c != '/' && c != '?' && c != '#')
      let hostname := hostPort.takeWhile (fun c => c != ':')
      if hostname = [] then none
      else some ⟨String.mk schemeChars ++ ":", String.mk hostname⟩

structure RegisterWebhookInput where
  carrierId : String
  trackingNumber : String
  callbackUrl : String
  expirationTime : Int

/-- `WebhookValidator.validateRegistrationInput`: the zod schema (nonempty
carrier id and tracking number, URL-shaped callback, expiration strictly
after `now` and at most 30 days ahead), then the protocol whitelist and, in
production, the private-host rejection.  Times are epoch milliseconds; zod
joins the messages of all failed schema checks, modelled here by the first
failing check's message. -/
def WebhookValidator.validateRegistrationInput (production : Bool) (now : Int)
    (input : RegisterWebhookInput) : Except WebhookError RegisterWebhookInput :=
  if input.carrierId.length = 0 then
    .error (.validation "Validation failed: Carrier ID is required")
  else if input.trackingNumber.length = 0 then
    .error (.validation "Validation failed: Tracking number is required")
  else if (parseUrl input.callbackUrl).isNone then
    .error (.validation "Validation failed: Callback URL must be a valid URL")
  else if ¬ (0 < input.expirationTime - now ∧ input.expirationTime - now ≤ 2592000000) then
    .error (.validation
      "Validation failed: Expiration time must be between now and 30 days in the future")
  else
    match parseUrl input.callbackUrl with
    | none => .error (.validation "Invalid callback URL")
    | some url =>
      if ¬ (url.protocol = "https:" ∨ url.protocol = "http:") then
        .error (.validation
          ("Callback URL protocol must be HTTP or HTTPS (got: " ++ url.protocol ++ ")"))
      else if production ∧ (url.hostname = "localhost" ∨ url.hostname = "127.0.0.1" ∨
          strStartsWith url.hostname "192.168." ∨ strStartsWith url.hostname "10." ∨
          strStartsWith url.hostname "172.") then
        .error (.validation "Callback URL cannot point to localhost or private IP addresses")
      else .ok input

def WebhookValidator.validateCarrierId (carrierId : String) (validCarrierIds : List String) :
    Except WebhookError Unit :=
  if validCarrierIds.contains carrierId then .ok ()
  else .error (.validation ("Invalid carrier ID: " ++ carrierId))

/-- Store and queue effects of a successful registration, in program order. -/
inductive RegisterEffect where
  | createWebhook (carrierId trackingNumber callbackUrl : String) (expirationTime : Int)
  | scheduleMonitorJob (id carrierId trackingNumber : String)

/-- `WebhookService.registerWebhook`: validation happens before any
persistence or scheduling, so a validation failure produces an error with no
effects. `freshId` stands for the id generated by the insert. -/
def WebhookService.registerWebhook (production : Bool) (now : Int)
    (validCarrierIds : List String) (freshId : String) (input : RegisterWebhookInput) :
    Except WebhookError (String × List RegisterEffect) :=
  match WebhookValidator.validateRegistrationInput production now input with
  | .error e => .error e
  | .ok v =>
    match WebhookValidator.validateCarrierId v.carrierId validCarrierIds with
    | .error e => .error e
    | .ok _ =>
      .ok (freshId,
        [.createWebhook v.carrierId v.trackingNumber v.callbackUrl v.expirationTime,
         .scheduleMonitorJob freshId v.carrierId v.trackingNumber])

/-! ## Auxiliary predicates and concrete sample values -/

/-- Whether a monitor effect writes the `lastChecksum` column. -/
def writesChecksum : MonitorEffect → Bool
  | .updateWebhook _ p => p.lastChecksum.isSome
  | _ => false

/-- Whether a monitor effect writes the `active` column. -/
def writesActive : MonitorEffect → Bool
  | .updateWebhook _ p => p.active.isSome
  | _ => false

def isEnqueueEffect : MonitorEffect → Bool
  | .enqueueDelivery _ => true
  | _ => false

/-- Whether the HTTP outcome counts as a failed delivery (non-2xx response,
network error or timeout). -/
def httpFailed : HttpResult → Bool
  | .response s _ => decide (¬ (200 ≤ s ∧ s < 300))
  | .networkError _ => true

/-- The `errorMessage` the delivery worker derives from a failed outcome. -/
def httpErrMsg : HttpResult → String
  | .response s b =>
    "HTTP " ++ toString s ++ ": " ++ (match b with | some x => x.take 200 | none => "undefined")
  | .networkError m => "Request failed: " ++ m

/-- The cache key of a `(carrierId, trackingNumber, data)` insertion. -/
def keyOf (it : String × String × TrackInfo) : String := buildKey it.1 it.2.1

/-- Perform a sequence of `set` calls at consecutive timestamps. -/
def setSeq (c : TrackingCache) (t : Nat) : List (String × String × TrackInfo) → TrackingCache
  | [] => c
  | (cid, tn, d) :: rest => setSeq (c.set t cid tn d) (t + 1) rest

/-- The entry list produced by inserting fresh keys at consecutive timestamps. -/
def seqEntries (t : Nat) : List (String × String × TrackInfo) → List (String × CacheEntry)
  | [] => []
  | (cid, tn, d) :: rest => (buildKey cid tn, ⟨d, t⟩) :: seqEntries (t + 1) rest

/-- Sample track info with one event whose object keys are out of order. -/
def tInfoEx1 : TrackInfo :=
  ⟨[jobj [("time", jstr "2024-01-01T00:00:00Z"), ("status", jstr "InTransit")]],
   jnull, jnull, []⟩

/-- The same event as `tInfoEx1` with its object keys reordered. -/
def tInfoEx2 : TrackInfo :=
  ⟨[jobj [("status", jstr "InTransit"), ("time", jstr "2024-01-01T00:00:00Z")]],
   jnull, jnull, []⟩

/-- Sample track info carrying nonempty `carrierSpecificData` maps. -/
def tInfoEx3 : TrackInfo :=
  ⟨[jobj [("status", jstr "InTransit"), ("carrierSpecificData", jmap [("raw", "v1")])]],
   jnull, jnull, [("top", "x")]⟩

/-- The same track info as `tInfoEx3` with different `carrierSpecificData`. -/
def tInfoEx4 : TrackInfo :=
  ⟨[jobj [("status", jstr "InTransit"), ("carrierSpecificData", jmap [("raw", "v2"), ("extra", "z")])]],
   jnull, jnull, []⟩

/-- A sample active, unexpired registration. -/
def regEx : WebhookRegistration :=
  ⟨"w1", "kr.cjlogistics", "100000001", "https://hook.test/r1", 10000, true,
   none, none, 0, none, none⟩

def jdEx : TrackingMonitorJobData := ⟨"w1", "kr.cjlogistics", "100000001"⟩

def djdEx : WebhookDeliveryJobData := ⟨"w1", "https://hook.test/r1", "\x7b\x7d", none, "c1"⟩

/-! ## Association-list lemmas for the cache map -/

theorem nodupKeys_iff (l : List String) : nodupKeys l = true ↔ l.Nodup := by
  induction l with
  | nil => simp [nodupKeys]
  | cons k t ih =>
    show ((!t.contains k) && nodupKeys t) = true ↔ (k :: t).Nodup
    rw [Bool.and_eq_true, Bool.not_eq_true', List.nodup_cons, ih]
    have : t.contains k = false ↔ k ∉ t := by
      rw [← Bool.not_eq_true]
      exact not_congr List.elem_iff
    rw [this]

theorem mapGet_mapSet_self (m : List (String × CacheEntry)) (k : String) (v : CacheEntry) :
    mapGet (mapSet m k v) k = some v := by
  induction m with
  | nil => simp [mapSet, mapGet]
  | cons p t ih =>
    obtain ⟨k₁, v₁⟩ := p
    by_cases h : k₁ = k <;> simp [mapSet, mapGet, h, ih]

theorem mapGet_eq_none_of_not_mem (m : List (String × CacheEntry)) (k : String)
    (h : k ∉ m.map Prod.fst) : mapGet m k = none := by
  induction m with
  | nil => rfl
  | cons p t ih =>
    obtain ⟨k₁, v₁⟩ := p
    simp only [List.map_cons, List.mem_cons, not_or] at h
    have h1 : k₁ ≠ k := fun e => h.1 e.symm
    show (if k₁ = k then some v₁ else mapGet t k) = none
    rw [if_neg h1]
    exact ih h.2

theorem keys_mapSet (m : List (String × CacheEntry)) (k : String) (v : CacheEntry) :
    (mapSet m k v).map Prod.fst =
      if k ∈ m.map Prod.fst then m.map Prod.fst else m.map Prod.fst ++ [k] := by
  induction m with
  | nil => simp [mapSet]
  | cons p t ih =>
    obtain ⟨k₁, v₁⟩ := p
    by_cases h : k₁ = k
    · simp [mapSet, h]
    · have hmem : (k ∈ k₁ :: t.map Prod.fst) ↔ k ∈ t.map Prod.fst := by
        constructor
        · intro hh
          rcases List.mem_cons.1 hh with h1 | h1
          · exact absurd h1.symm h
          · exact h1
        · exact List.mem_cons_of_mem _
      have heq : mapSet ((k₁, v₁) :: t) k v = (k₁, v₁) :: mapSet t k v := by
        simp [mapSet, h]
      rw [heq, List.map_cons, ih, List.map_cons]
      rw [if_congr hmem rfl rfl]
      split <;> simp

theorem nodup_keys_mapSet (m : List (String × CacheEntry)) (k : String) (v : CacheEntry)
    (h : (m.map Prod.fst).Nodup) : ((mapSet m k v).map Prod.fst).Nodup := by
  rw [keys_mapSet]
  split
  · exact h
  · rename_i hnot
    refine List.Nodup.append h (List.nodup_singleton k) ?_
    intro x hx hk
    rw [List.mem_singleton] at hk
    subst hk
    exact hnot hx

theorem keys_mapDelete_sublist (m : List (String × CacheEntry)) (k : String) :
    ((mapDelete m k).map Prod.fst).Sublist (m.map Prod.fst) := by
  induction m with
  | nil => simp [mapDelete]
  | cons p t ih =>
    obtain ⟨k₁, v₁⟩ := p
    by_cases h : k₁ = k
    · simp only [mapDelete, h, if_pos, List.map_cons]
      exact (List.sublist_cons_self _ _)
    · simp only [mapDelete, h, if_neg, not_false_iff, List.map_cons]
      exact ih.cons₂ _

theorem nodup_keys_mapDelete (m : List (String × CacheEntry)) (k : String)
    (h : (m.map Prod.fst).Nodup) : ((mapDelete m k).map Prod.fst).Nodup :=
  h.sublist (keys_mapDelete_sublist m k)

theorem mapGet_mapDelete_self (m : List (String × CacheEntry)) (k : String)
    (h : (m.map Prod.fst).Nodup) : mapGet (mapDelete m k) k = none := by
  induction m with
  | nil => rfl
  | cons p t ih =>
    obtain ⟨k₁, v₁⟩ := p
    simp only [List.map_cons, List.nodup_cons] at h
    by_cases hk : k₁ = k
    · have heq : mapDelete ((k₁, v₁) :: t) k = t := by simp [mapDelete, hk]
      rw [heq]
      apply mapGet_eq_none_of_not_mem
      rw [← hk]
      exact h.1
    · have heq : mapDelete ((k₁, v₁) :: t) k = (k₁, v₁) :: mapDelete t k := by
        simp [mapDelete, hk]
      rw [heq]
      show (if k₁ = k then some v₁ else mapGet (mapDelete t k) k) = none
      rw [if_neg hk]
      exact ih h.2

theorem evictOldest_ttl (c : TrackingCache) : c.evictOldest.ttl = c.ttl := by
  unfold TrackingCache.evictOldest
  split <;> rfl

theorem evictOldest_maxSize (c : TrackingCache) : c.evictOldest.maxSize = c.maxSize := by
  unfold TrackingCache.evictOldest
  split <;> rfl

theorem evictOldest_nodup (c : TrackingCache) (h : (c.entries.map Prod.fst).Nodup) :
    (c.evictOldest.entries.map Prod.fst).Nodup := by
  unfold TrackingCache.evictOldest
  split
  · exact h
  · exact nodup_keys_mapDelete _ _ h

theorem set_entries_eq (c : TrackingCache) (t₀ : Nat) (cid tn : String) (v : TrackInfo) :
    (c.set t₀ cid tn v).entries =
      mapSet (if c.entries.length ≥ c.maxSize then c.evictOldest else c).entries
        (buildKey cid tn) ⟨v, t₀⟩ := rfl

theorem set_ttl (c : TrackingCache) (t₀ : Nat) (cid tn : String) (v : TrackInfo) :
    (c.set t₀ cid tn v).ttl = c.ttl := by
  show (if c.entries.length ≥ c.maxSize then c.evictOldest else c).ttl = c.ttl
  split
  · exact evictOldest_ttl c
  · rfl

theorem set_nodup (c : TrackingCache) (t₀ : Nat) (cid tn : String) (v : TrackInfo)
    (h : (c.entries.map Prod.fst).Nodup) :
    ((c.set t₀ cid tn v).entries.map Prod.fst).Nodup := by
  rw [set_entries_eq]
  apply nodup_keys_mapSet
  split
  · exact evictOldest_nodup c h
  · exact h

/-- Unfolding equation for `TrackingCache.get`. -/
theorem get_eq (c : TrackingCache) (now : Nat) (cid tn : String) :
    c.get now cid tn =
      match mapGet c.entries (buildKey cid tn) with
      | none => (none, c)
      | some e =>
        if now - e.timestamp > c.ttl then
          (none, { c with entries := mapDelete c.entries (buildKey cid tn) })
        else (some e.data, c) := rfl

/-- C6: after `Set(k, v)` with no intervening operation, `Get(k)` returns `v`
while the entry's age `now − t₀` is at most the TTL, and once the age exceeds
the TTL it returns `nil` and deletes the entry from the map.  The hypothesis
is the JS `Map` invariant that keys are unique. -/
theorem cache_set_then_get (c : TrackingCache) (t₀ now : Nat) (cid tn : String) (v : TrackInfo)
    (hnodup : (c.entries.map Prod.fst).Nodup) :
    (now - t₀ ≤ c.ttl →
      (c.set t₀ cid tn v).get now cid tn = (some v, c.set t₀ cid tn v)) ∧
    (now - t₀ > c.ttl →
      ((c.set t₀ cid tn v).get now cid tn).1 = none ∧
      mapGet ((c.set t₀ cid tn v).get now cid tn).2.entries (buildKey cid tn) = none) := by
  have hget : mapGet (c.set t₀ cid tn v).entries (buildKey cid tn) = some ⟨v, t₀⟩ := by
    rw [set_entries_eq]
    exact mapGet_mapSet_self _ _ _
  have httl := set_ttl c t₀ cid tn v
  constructor
  · intro hle
    rw [get_eq, hget]
    simp only [httl]
    rw [if_neg (by omega)]
  · intro hgt
    rw [get_eq, hget]
    simp only [httl]
    rw [if_pos (by omega)]
    refine ⟨rfl, ?_⟩
    exact mapGet_mapDelete_self _ _ (set_nodup c t₀ cid tn v hnodup)

/-- Witness for C6 at a concrete cache, key and pair of times. -/
theorem cache_set_then_get_witness :
    ((⟨300000, 1000, []⟩ : TrackingCache).set 0 "kr.cjlogistics" "100000001" tInfoEx1).get
        250000 "kr.cjlogistics" "100000001" =
      (some tInfoEx1,
        (⟨300000, 1000, []⟩ : TrackingCache).set 0 "kr.cjlogistics" "100000001" tInfoEx1) ∧
    (((⟨300000, 1000, []⟩ : TrackingCache).set 0 "kr.cjlogistics" "100000001" tInfoEx1).get
        300001 "kr.cjlogistics" "100000001").1 = none := by
  have h1 := cache_set_then_get ⟨300000, 1000, []⟩ 0 250000 "kr.cjlogistics" "100000001"
    tInfoEx1 (by simp)
  have h2 := cache_set_then_get ⟨300000, 1000, []⟩ 0 300001 "kr.cjlogistics" "100000001"
    tInfoEx1 (by simp)
  exact ⟨h1.1 (by decide), (h2.2 (by decide)).1⟩

/-! ## C9: updateWebhook error classification -/

/-- C9 counterexample: a storage fault while updating an id that does exist
in the store surfaces as `WebhookNotFoundError` — the catch-all in
`updateWebhook` converts every failure, storage errors included, into
`NotFound`, contradicting the claim that such errors surface as `Internal`
and that `NotFound` occurs exactly when the id is absent. -/
theorem updateWebhook_storage_fault_counterexample :
    WebhookRepository.findWebhookById [regEx] "w1" = some regEx ∧
    WebhookRepository.updateWebhook [regEx] "w1" {} true =
      .error (.notFound "w1") := by
  exact ⟨rfl, rfl⟩

/-- C9 amended: `updateWebhook` fails with `WebhookNotFoundError` exactly
when the id is absent or the underlying update fails for any reason
(storage faults included), and every error it produces is `NotFound` — no
`Internal` error is ever raised. -/
theorem updateWebhook_error_characterization (db : List WebhookRegistration) (id : String)
    (input : UpdateWebhookInput) (fault : Bool) :
    (WebhookRepository.updateWebhook db id input fault = .error (.notFound id) ↔
      (fault = true ∨ WebhookRepository.findWebhookById db id = none)) ∧
    (∀ e, WebhookRepository.updateWebhook db id input fault = .error e →
      e = .notFound id) := by
  by_cases h : fault = true ∨ WebhookRepository.findWebhookById db id = none
  · have hupd : WebhookRepository.updateWebhook db id input fault = .error (.notFound id) := by
      unfold WebhookRepository.updateWebhook
      rw [if_pos]
      rcases h with h | h
      · exact Or.inl h
      · exact Or.inr (by rw [Option.isNone_iff_eq_none]; exact h)
    refine ⟨by simp [hupd, h], ?_⟩
    intro e he
    rw [hupd] at he
    exact (Except.error.inj he).symm
  · have hupd : ∃ r, WebhookRepository.updateWebhook db id input fault = .ok r := by
      unfold WebhookRepository.updateWebhook
      rw [if_neg]
      · exact ⟨_, rfl⟩
      · intro hc
        rcases hc with hc | hc
        · exact h (Or.inl hc)
        · exact h (Or.inr (by rwa [← Option.isNone_iff_eq_none]))
    obtain ⟨r, hupd⟩ := hupd
    constructor
    · rw [hupd]
      simp [h]
    · intro e he
      rw [hupd] at he
      exact absurd he (by simp)

/-- Witness for C9's amended characterization at a concrete store. -/
theorem updateWebhook_error_characterization_witness :
    WebhookRepository.updateWebhook [regEx] "w2" {} false = .error (.notFound "w2") :=
  (updateWebhook_error_characterization [regEx] "w2" {} false).1.2 (Or.inr rfl)

/-! ## C1 and C3: delivery worker classification -/

/-- Unfolding equation for `WebhookDeliveryJob.process` on an HTTP response. -/
theorem process_response_eq (jd : WebhookDeliveryJobData) (am : Nat) (td : JVal)
    (iso : String) (s : Nat) (b : Option String) :
    WebhookDeliveryJob.process jd ⟨am, td, iso, .response s b⟩ =
      if 200 ≤ s ∧ s < 300 then
        { log := ⟨jd.webhookRegistrationId, am + 1, some s, true, none,
                  deliveryRequestBody jd td iso, b.map (fun x => x.take 1000)⟩,
          patch := {},
          raised := false }
      else
        { log := ⟨jd.webhookRegistrationId, am + 1, some s, false,
                  some (httpErrMsg (.response s b)),
                  deliveryRequestBody jd td iso, b.map (fun x => x.take 1000)⟩,
          patch :=
            if am + 1 ≥ 4 then
              { active := some false,
                lastError := some ("Delivery failed after " ++ toString (am + 1) ++
                  " attempts: " ++ httpErrMsg (.response s b)) }
            else
              { lastError := some ("Delivery attempt " ++ toString (am + 1) ++
                  " failed: " ++ httpErrMsg (.response s b)) },
          raised := WebhookDeliveryJob.shouldRetry s (am + 1) } := rfl

/-- Unfolding equation for `WebhookDeliveryJob.process` on a network error. -/
theorem process_networkError_eq (jd : WebhookDeliveryJobData) (am : Nat) (td : JVal)
    (iso : String) (m : String) :
    WebhookDeliveryJob.process jd ⟨am, td, iso, .networkError m⟩ =
      { log := ⟨jd.webhookRegistrationId, am + 1, none, false,
                some ("Request failed: " ++ m), deliveryRequestBody jd td iso, none⟩,
        patch :=
          if am + 1 ≥ 4 then
            { active := some false,
              lastError := some ("Delivery failed after " ++ toString (am + 1) ++
                " attempts: " ++ ("Request failed: " ++ m)) }
          else
            { lastError := some ("Delivery attempt " ++ toString (am + 1) ++
                " failed: " ++ ("Request failed: " ++ m)) },
        raised := decide (am + 1 < 4) } := rfl

/-- C1 counterexample: a 404 response on the first attempt — a terminal
failure per the claim — completes without raising but leaves `active`
untouched and records "Delivery attempt 1 failed", not the claimed
deactivation with "Delivery failed after 1 attempts". -/
theorem delivery_404_first_attempt_counterexample :
    (WebhookDeliveryJob.process djdEx
      ⟨0, jnull, "2026-01-01T00:00:00.000Z", .response 404 (some "nf")⟩).raised = false ∧
    (WebhookDeliveryJob.process djdEx
      ⟨0, jnull, "2026-01-01T00:00:00.000Z", .response 404 (some "nf")⟩).patch.active = none ∧
    (WebhookDeliveryJob.process djdEx
      ⟨0, jnull, "2026-01-01T00:00:00.000Z", .response 404 (some "nf")⟩).log.success = false ∧
    (WebhookDeliveryJob.process djdEx
      ⟨0, jnull, "2026-01-01T00:00:00.000Z", .response 404 (some "nf")⟩).patch.lastError =
      some "Delivery attempt 1 failed: HTTP 404: nf" := by
  refine ⟨rfl, rfl, rfl, rfl⟩

/-- C1 amended: the worker deactivates (`active=false`,
`lastError="Delivery failed after <n> attempts: <msg>"`, failure log, no
raise) exactly on a failed attempt with `attemptNumber ≥ 4`; a non-retryable
classification (400, 401, 403, 404, or any other 4xx from the second attempt
on) at `attemptNumber < 4` also logs `success=false` and does not raise, but
leaves `active` unchanged and sets
`lastError="Delivery attempt <n> failed: <msg>"`. -/
theorem delivery_terminal_failure_behavior (jd : WebhookDeliveryJobData) (env : DeliveryEnv) :
    (env.attemptsMade + 1 ≥ 4 → httpFailed env.http = true →
      (WebhookDeliveryJob.process jd env).patch.active = some false ∧
      (WebhookDeliveryJob.process jd env).patch.lastError =
        some ("Delivery failed after " ++ toString (env.attemptsMade + 1) ++
          " attempts: " ++ httpErrMsg env.http) ∧
      (WebhookDeliveryJob.process jd env).log.success = false ∧
      (WebhookDeliveryJob.process jd env).raised = false) ∧
    (∀ status body, env.http = .response status body → env.attemptsMade + 1 < 4 →
      (status = 400 ∨ status = 401 ∨ status = 403 ∨ status = 404 ∨
        (400 ≤ status ∧ status < 500 ∧ 2 ≤ env.attemptsMade + 1)) →
      (WebhookDeliveryJob.process jd env).raised = false ∧
      (WebhookDeliveryJob.process jd env).log.success = false ∧
      (WebhookDeliveryJob.process jd env).patch.active = none ∧
      (WebhookDeliveryJob.process jd env).patch.lastError =
        some ("Delivery attempt " ++ toString (env.attemptsMade + 1) ++
          " failed: " ++ httpErrMsg env.http)) := by
  obtain ⟨am, td, iso, http⟩ := env
  dsimp only
  constructor
  · intro h4 hfail
    match http with
    | .response s b =>
      have hfail2 : s < 200 ∨ 300 ≤ s := by simpa [httpFailed] using hfail
      have hns : ¬ (200 ≤ s ∧ s < 300) := by omega
      rw [process_response_eq, if_neg hns]
      have hretry : WebhookDeliveryJob.shouldRetry s (am + 1) = false := by
        unfold WebhookDeliveryJob.shouldRetry
        rw [if_pos h4]
      rw [if_pos h4, hretry]
      exact ⟨rfl, rfl, rfl, rfl⟩
    | .networkError m =>
      rw [process_networkError_eq, if_pos h4]
      refine ⟨rfl, rfl, rfl, ?_⟩
      simp only [decide_eq_false_iff_not]
      omega
  · intro status body hhttp hlt hclass
    cases hhttp
    have hns : ¬ (200 ≤ status ∧ status < 300) := by omega
    have h4 : ¬ (am + 1 ≥ 4) := by omega
    have hretry : WebhookDeliveryJob.shouldRetry status (am + 1) = false := by
      unfold WebhookDeliveryJob.shouldRetry
      rw [if_neg h4]
      rcases hclass with h | h | h | h | h
      · subst h
        rw [if_neg (by omega), if_pos (by omega), if_pos (by tauto)]
      · subst h
        rw [if_neg (by omega), if_pos (by omega), if_pos (by tauto)]
      · subst h
        rw [if_neg (by omega), if_pos (by omega), if_pos (by tauto)]
      · subst h
        rw [if_neg (by omega), if_pos (by omega), if_pos (by tauto)]
      · by_cases h400 : status = 400 ∨ status = 401 ∨ status = 403 ∨ status = 404
        · rw [if_neg (by omega), if_pos (by omega), if_pos h400]
        · rw [if_neg (by omega), if_pos (by omega), if_neg h400]
          simp only [decide_eq_false_iff_not]
          omega
    rw [process_response_eq, if_neg hns, if_neg h4, hretry]
    exact ⟨rfl, rfl, rfl, rfl⟩

/-- Witness for C1's amended statement: a fourth-attempt 500 deactivates,
and a second-attempt 429 completes without raising and without deactivating. -/
theorem delivery_terminal_failure_behavior_witness :
    ((WebhookDeliveryJob.process djdEx
        ⟨3, jnull, "t", .response 500 none⟩).patch.active = some false ∧
      (WebhookDeliveryJob.process djdEx
        ⟨3, jnull, "t", .response 500 none⟩).raised = false) ∧
    ((WebhookDeliveryJob.process djdEx
        ⟨1, jnull, "t", .response 429 none⟩).raised = false ∧
      (WebhookDeliveryJob.process djdEx
        ⟨1, jnull, "t", .response 429 none⟩).patch.active = none) := by
  have h1 := (delivery_terminal_failure_behavior djdEx ⟨3, jnull, "t", .response 500 none⟩).1
    (by decide) (by decide)
  have h2 := (delivery_terminal_failure_behavior djdEx ⟨1, jnull, "t", .response 429 none⟩).2
    429 none rfl (by decide) (by right; right; right; right; exact ⟨by decide, by decide, by decide⟩)
  exact ⟨⟨h1.1, h1.2.2.2⟩, ⟨h2.1, h2.2.2.1⟩⟩

/-- C3 counterexample: a 301 response (and likewise a 600 response) on the
first attempt does not raise — the worker completes the job, so the queue
performs no retry, contradicting the claimed retry for 3xx and ≥ 600. -/
theorem delivery_3xx_counterexample :
    (WebhookDeliveryJob.process djdEx ⟨0, jnull, "t", .response 301 none⟩).raised = false ∧
    (WebhookDeliveryJob.process djdEx ⟨0, jnull, "t", .response 600 none⟩).raised = false := by
  exact ⟨rfl, rfl⟩

/-- C3 amended: below the attempt cap, a network error or timeout raises so
the queue retries with back-off, but a response whose status is a 3xx or
≥ 600 never raises: the invocation completes, logging a failure and setting
`lastError="Delivery attempt <n> failed: <msg>"` while leaving `active`
unchanged. -/
theorem delivery_retry_classification (jd : WebhookDeliveryJobData) (env : DeliveryEnv) :
    (∀ m, env.http = .networkError m → env.attemptsMade + 1 < 4 →
      (WebhookDeliveryJob.process jd env).raised = true) ∧
    (∀ status body, env.http = .response status body →
      ((300 ≤ status ∧ status < 400) ∨ 600 ≤ status) →
      (WebhookDeliveryJob.process jd env).raised = false ∧
      (env.attemptsMade + 1 < 4 →
        (WebhookDeliveryJob.process jd env).patch.active = none ∧
        (WebhookDeliveryJob.process jd env).patch.lastError =
          some ("Delivery attempt " ++ toString (env.attemptsMade + 1) ++
            " failed: " ++ httpErrMsg env.http))) := by
  obtain ⟨am, td, iso, http⟩ := env
  dsimp only
  constructor
  · intro m hm hlt
    cases hm
    rw [process_networkError_eq]
    simp only [decide_eq_true_eq]
    omega
  · intro status body hhttp hclass
    cases hhttp
    have hns : ¬ (200 ≤ status ∧ status < 300) := by omega
    have hretry : WebhookDeliveryJob.shouldRetry status (am + 1) = false := by
      unfold WebhookDeliveryJob.shouldRetry
      by_cases h4 : am + 1 ≥ 4
      · rw [if_pos h4]
      · rw [if_neg h4, if_neg (by omega), if_neg (by omega)]
    rw [process_response_eq, if_neg hns, hretry]
    refine ⟨rfl, ?_⟩
    intro hlt
    rw [if_neg (by omega)]
    exact ⟨rfl, rfl⟩

/-- Witness for C3's amended statement: a first-attempt network error raises
and a first-attempt 301 response does not. -/
theorem delivery_retry_classification_witness :
    (WebhookDeliveryJob.process djdEx ⟨0, jnull, "t", .networkError "timeout"⟩).raised = true ∧
    (WebhookDeliveryJob.process djdEx ⟨0, jnull, "t", .response 301 none⟩).raised = false := by
  have h1 := (delivery_retry_classification djdEx ⟨0, jnull, "t", .networkError "timeout"⟩).1
    "timeout" rfl (by decide)
  have h2 := (delivery_retry_classification djdEx ⟨0, jnull, "t", .response 301 none⟩).2
    301 none rfl (Or.inl ⟨by decide, by decide⟩)
  exact ⟨h1, h2.1⟩

/-! ## C4: carrier-error isolation in the monitor -/

/-- C4: on an active, unexpired registration with a known carrier, a cache
miss and a raising `carrier.track`, the monitor performs exactly one store
update — `lastError = "Tracking API error: <msg>"`, `lastCheckedAt = now` —
returns without raising, and performs no enqueue, no `lastChecksum` write and
no `active` write. -/
theorem monitor_carrier_error_isolation (jd : TrackingMonitorJobData)
    (w : WebhookRegistration) (now : Nat) (msg : String) (enqF : Option String)
    (hactive : w.active = true) (hexp : ¬ now > w.expirationTime) :
    TrackingMonitorJob.process jd ⟨some w, now, true, none, .error msg, enqF⟩ =
      ([.updateWebhook jd.webhookRegistrationId
         { lastCheckedAt := some now,
           lastError := some ("Tracking API error: " ++ msg) }], false) ∧
    (∀ e ∈ (TrackingMonitorJob.process jd ⟨some w, now, true, none, .error msg, enqF⟩).1,
      isEnqueueEffect e = false ∧ writesChecksum e = false ∧ writesActive e = false) := by
  have heq : TrackingMonitorJob.process jd ⟨some w, now, true, none, .error msg, enqF⟩ =
      ([.updateWebhook jd.webhookRegistrationId
         { lastCheckedAt := some now,
           lastError := some ("Tracking API error: " ++ msg) }], false) := by
    unfold TrackingMonitorJob.process
    dsimp only
    rw [if_neg (by simp [hactive]), if_neg hexp, if_neg (by simp)]
  refine ⟨heq, ?_⟩
  rw [heq]
  intro e he
  simp only [List.mem_singleton] at he
  subst he
  exact ⟨rfl, rfl, rfl⟩

/-- Witness for C4 at a concrete registration and carrier failure. -/
theorem monitor_carrier_error_isolation_witness :
    TrackingMonitorJob.process jdEx ⟨some regEx, 100, true, none, .error "boom", none⟩ =
      ([.updateWebhook "w1"
         { lastCheckedAt := some 100,
           lastError := some "Tracking API error: boom" }], false) :=
  (monitor_carrier_error_isolation jdEx regEx 100 "boom" none rfl (by decide)).1

/-! ## C2: enqueue strictly precedes the checksum write -/

/-- C2: in every monitor invocation, any effect that writes `lastChecksum`
occurs at a strictly later position of the effect trace than an enqueue of
the delivery job, and such a write exists only when the enqueue succeeded —
`lastChecksum` is never written before a successful enqueue. -/
theorem monitor_enqueue_before_checksum_write (jd : TrackingMonitorJobData)
    (env : MonitorEnv) (n : Nat)
    (h : writesChecksum
      ((TrackingMonitorJob.process jd env).1.getD n (.removeMonitorJob "")) = true) :
    env.enqueueFail = none ∧
    ∃ m, m < n ∧
      isEnqueueEffect
        ((TrackingMonitorJob.process jd env).1.getD m (.removeMonitorJob "")) = true := by
  obtain ⟨wh, now, ck, cres, tres, enqF⟩ := env
  revert h
  dsimp only
  unfold TrackingMonitorJob.process
  dsimp only
  split
  · intro h
    rcases n with _ | n <;> simp [writesChecksum, List.getD] at h
  · rename_i w
    split
    · intro h
      rcases n with _ | n <;> simp [writesChecksum, List.getD] at h
    · split
      · intro h
        rcases n with _ | _ | n <;> simp [writesChecksum, List.getD] at h
      · split
        · intro h
          rcases n with _ | n <;> simp [writesChecksum, List.getD] at h
        · split
          · rename_i trackInfo
            unfold monitorTail
            dsimp only
            split
            · intro h
              rcases n with _ | n <;> simp [writesChecksum, List.getD] at h
            · split
              · intro h
                rcases n with _ | n <;> simp [writesChecksum, List.getD] at h
              · intro h
                rcases n with _ | _ | n
                · simp [writesChecksum, List.getD] at h
                · exact ⟨rfl, 0, by omega, rfl⟩
                · rcases n with _ | n <;> simp [writesChecksum, List.getD] at h
          · split
            · intro h
              rcases n with _ | n <;> simp [writesChecksum, List.getD] at h
            · rename_i trackInfo
              unfold monitorTail
              dsimp only
              split
              · intro h
                rcases n with _ | _ | n <;> simp [writesChecksum, List.getD] at h
              · split
                · intro h
                  rcases n with _ | _ | n <;> simp [writesChecksum, List.getD] at h
                · intro h
                  rcases n with _ | _ | _ | n
                  · simp [writesChecksum, List.getD] at h
                  · simp [writesChecksum, List.getD] at h
                  · exact ⟨rfl, 1, by omega, rfl⟩
                  · rcases n with _ | n <;> simp [writesChecksum, List.getD] at h

/-- Witness for C2: a concrete change-detecting invocation whose trace is
`[enqueueDelivery …, updateWebhook …]`; the checksum write sits at index 1,
after the enqueue at index 0. -/
theorem monitor_enqueue_before_checksum_write_witness :
    (⟨some regEx, 100, true, some tInfoEx1, .ok tInfoEx1, none⟩ : MonitorEnv).enqueueFail
        = none ∧
    ∃ m, m < 1 ∧
      isEnqueueEffect
        ((TrackingMonitorJob.process jdEx
            ⟨some regEx, 100, true, some tInfoEx1, .ok tInfoEx1, none⟩).1.getD m
          (.removeMonitorJob "")) = true :=
  monitor_enqueue_before_checksum_write jdEx
    ⟨some regEx, 100, true, some tInfoEx1, .ok tInfoEx1, none⟩ 1 rfl

/-! ## C5: registration validation -/

theorem validate_error_validation (production : Bool) (now : Int)
    (input : RegisterWebhookInput) (e : WebhookError)
    (h : WebhookValidator.validateRegistrationInput production now input = .error e) :
    ∃ m, e = .validation m := by
  unfold WebhookValidator.validateRegistrationInput at h
  repeat' split at h
  all_goals first
    | exact ⟨_, (Except.error.inj h).symm⟩
    | simp at h

/-- Inversion of a successful validation: the returned value is the input and
every schema check passed. -/
theorem validate_ok_inv (production : Bool) (now : Int)
    (input v : RegisterWebhookInput)
    (h : WebhookValidator.validateRegistrationInput production now input = .ok v) :
    v = input ∧ input.carrierId ≠ "" ∧ input.trackingNumber ≠ "" ∧
    (∃ u, parseUrl input.callbackUrl = some u ∧
      (u.protocol = "https:" ∨ u.protocol = "http:") ∧
      (production = true → ¬ (u.hostname = "localhost" ∨ u.hostname = "127.0.0.1" ∨
        strStartsWith u.hostname "192.168." = true ∨ strStartsWith u.hostname "10." = true ∨
        strStartsWith u.hostname "172." = true))) ∧
    (now < input.expirationTime ∧ input.expirationTime ≤ now + 2592000000) := by
  unfold WebhookValidator.validateRegistrationInput at h
  split at h
  · simp at h
  · split at h
    · simp at h
    · split at h
      · simp at h
      · split at h
        · simp at h
        · rename_i h1 h2 h3 htime
          split at h
          · simp at h
          · rename_i u hu
            split at h
            · simp at h
            · split at h
              · simp at h
              · rename_i hproto hpriv
                refine ⟨(Except.ok.inj h).symm, ?_, ?_, ⟨u, hu, ?_, ?_⟩, ?_⟩
                · intro hc
                  exact h1 (by simp [hc])
                · intro hc
                  exact h2 (by simp [hc])
                · tauto
                · intro hprod hbad
                  exact hpriv ⟨hprod, by tauto⟩
                · omega

/-- C5: every registration input failing one of the validation rules — empty
carrier id or tracking number, unparsable callback URL, non-http(s) scheme,
an expiration not strictly in the future or more than 30 days ahead, a
carrier id unknown to the registry, or (in production) a private or loopback
callback host by textual prefix — makes `registerWebhook` raise the
`BadRequest` validation error, and therefore perform no store insert and no
queue scheduling (effects are only produced on the success path, after
validation). -/
theorem register_validation_failure (production : Bool) (now : Int)
    (validIds : List String) (freshId : String) (input : RegisterWebhookInput)
    (hbad : input.carrierId = "" ∨ input.trackingNumber = "" ∨
      parseUrl input.callbackUrl = none ∨
      (∀ u, parseUrl input.callbackUrl = some u →
        ¬ (u.protocol = "https:" ∨ u.protocol = "http:")) ∨
      ¬ (now < input.expirationTime ∧ input.expirationTime ≤ now + 2592000000) ∨
      input.carrierId ∉ validIds ∨
      (production = true ∧ ∀ u, parseUrl input.callbackUrl = some u →
        (u.hostname = "localhost" ∨ u.hostname = "127.0.0.1" ∨
         strStartsWith u.hostname "10." = true ∨ strStartsWith u.hostname "172." = true ∨
         strStartsWith u.hostname "192.168." = true))) :
    ∃ msg, WebhookService.registerWebhook production now validIds freshId input =
      .error (.validation msg) := by
  unfold WebhookService.registerWebhook
  cases hv : WebhookValidator.validateRegistrationInput production now input with
  | error e =>
    obtain ⟨m, rfl⟩ := validate_error_validation _ _ _ _ hv
    exact ⟨m, rfl⟩
  | ok v =>
    obtain ⟨rfl, hcid, htn, ⟨u, hu, hproto, hpriv⟩, htime⟩ :=
      validate_ok_inv _ _ _ _ hv
    rcases hbad with h | h | h | h | h | h | h
    · exact absurd h hcid
    · exact absurd h htn
    · rw [h] at hu
      cases hu
    · exact absurd hproto (h u hu)
    · exact absurd htime h
    · cases hck : WebhookValidator.validateCarrierId v.carrierId validIds with
      | error e =>
        have hck0 := hck
        unfold WebhookValidator.validateCarrierId at hck
        rw [if_neg (fun hc => h (List.elem_iff.mp hc))] at hck
        obtain ⟨m0, rfl⟩ : ∃ m0, e = .validation m0 := ⟨_, (Except.error.inj hck).symm⟩
        exact ⟨m0, by simp [hck0]⟩
      | ok uu =>
        unfold WebhookValidator.validateCarrierId at hck
        rw [if_neg (fun hc => h (List.elem_iff.mp hc))] at hck
        exact absurd hck (by simp)
    · have hb := h.2 u hu
      exact absurd (by tauto : u.hostname = "localhost" ∨ u.hostname = "127.0.0.1" ∨
        strStartsWith u.hostname "192.168." = true ∨ strStartsWith u.hostname "10." = true ∨
        strStartsWith u.hostname "172." = true) (hpriv h.1)

/-- Witness for C5: in production mode a callback to a 10.0.0.0/8 host is
rejected with a validation error. -/
theorem register_validation_failure_witness :
    ∃ msg, WebhookService.registerWebhook true 0 ["kr.cjlogistics"] "w9"
      ⟨"kr.cjlogistics", "100000001", "http://10.2.3.4/cb", 1000⟩ =
      .error (.validation msg) := by
  apply register_validation_failure
  refine Or.inr (Or.inr (Or.inr (Or.inr (Or.inr (Or.inr ⟨rfl, ?_⟩)))))
  intro u hu
  have : parseUrl "http://10.2.3.4/cb" = some ⟨"http:", "10.2.3.4"⟩ := rfl
  rw [this] at hu
  cases hu
  refine Or.inr (Or.inr (Or.inl ?_))
  decide

/-! ## C7: cache size invariant and eviction discipline -/

theorem length_mapSet (m : List (String × CacheEntry)) (k : String) (v : CacheEntry) :
    (mapSet m k v).length =
      if k ∈ m.map Prod.fst then m.length else m.length + 1 := by
  have h := congrArg List.length (keys_mapSet m k v)
  simpa [apply_ite List.length] using h

theorem mapSet_append_of_not_mem (m : List (String × CacheEntry)) (k : String)
    (v : CacheEntry) (h : k ∉ m.map Prod.fst) : mapSet m k v = m ++ [(k, v)] := by
  induction m with
  | nil => rfl
  | cons p t ih =>
    obtain ⟨k₁, v₁⟩ := p
    simp only [List.map_cons, List.mem_cons, not_or] at h
    have h1 : k₁ ≠ k := fun e => h.1 e.symm
    show (if k₁ = k then (k₁, v) :: t else (k₁, v₁) :: mapSet t k v) = _
    rw [if_neg h1, ih h.2]
    rfl

theorem mapDelete_length_le (m : List (String × CacheEntry)) (k : String) :
    (mapDelete m k).length ≤ m.length := by
  have h := congrArg List.length (List.map_id (mapDelete m k))
  have := (keys_mapDelete_sublist m k).length_le
  simpa using this

theorem length_mapDelete_of_mem (m : List (String × CacheEntry)) (k : String)
    (h : k ∈ m.map Prod.fst) : (mapDelete m k).length + 1 = m.length := by
  induction m with
  | nil => simp at h
  | cons p t ih =>
    obtain ⟨k₁, v₁⟩ := p
    by_cases hk : k₁ = k
    · have heq : mapDelete ((k₁, v₁) :: t) k = t := by simp [mapDelete, hk]
      rw [heq]
      rfl
    · have heq : mapDelete ((k₁, v₁) :: t) k = (k₁, v₁) :: mapDelete t k := by
        simp [mapDelete, hk]
      rw [heq]
      have hmem : k ∈ t.map Prod.fst := by
        rcases List.mem_cons.1 h with h1 | h1
        · exact absurd h1.symm hk
        · exact h1
      have := ih hmem
      simp only [List.length_cons]
      omega

theorem foldl_oldestStep_some (m : List (String × CacheEntry)) (k₀ : String) (t₀ : Nat) :
    ∃ k t, m.foldl oldestStep (some (k₀, t₀)) = some (k, t) := by
  induction m generalizing k₀ t₀ with
  | nil => exact ⟨k₀, t₀, rfl⟩
  | cons e es ih =>
    show ∃ k t, es.foldl oldestStep (oldestStep (some (k₀, t₀)) e) = some (k, t)
    unfold oldestStep
    dsimp only
    split
    · exact ih _ _
    · exact ih _ _

theorem foldl_oldestStep_mem (m : List (String × CacheEntry))
    (acc : Option (String × Nat)) (k : String) (t : Nat)
    (h : m.foldl oldestStep acc = some (k, t)) :
    acc = some (k, t) ∨ k ∈ m.map Prod.fst := by
  induction m generalizing acc with
  | nil => exact Or.inl h
  | cons e es ih =>
    have h' : es.foldl oldestStep (oldestStep acc e) = some (k, t) := h
    rcases ih (oldestStep acc e) h' with h1 | h1
    · cases acc with
      | none =>
        have h2 : (e.1, e.2.timestamp) = (k, t) := Option.some.inj h1
        right
        rw [List.map_cons]
        exact List.mem_cons.2 (Or.inl (congrArg Prod.fst h2).symm)
      | some p =>
        obtain ⟨k₀, t₀⟩ := p
        unfold oldestStep at h1
        dsimp only at h1
        split at h1
        · have h2 : (e.1, e.2.timestamp) = (k, t) := Option.some.inj h1
          right
          rw [List.map_cons]
          exact List.mem_cons.2 (Or.inl (congrArg Prod.fst h2).symm)
        · exact Or.inl h1
    · exact Or.inr (List.mem_cons_of_mem _ h1)

theorem findOldest_isSome (m : List (String × CacheEntry)) (h : m ≠ []) :
    ∃ k t, findOldest m = some (k, t) := by
  match m with
  | [] => exact absurd rfl h
  | e :: es =>
    show ∃ k t, es.foldl oldestStep (oldestStep none e) = some (k, t)
    exact foldl_oldestStep_some es e.1 e.2.timestamp

theorem findOldest_mem (m : List (String × CacheEntry)) (k : String) (t : Nat)
    (h : findOldest m = some (k, t)) : k ∈ m.map Prod.fst := by
  rcases foldl_oldestStep_mem m none k t h with h1 | h1
  · cases h1
  · exact h1

theorem evictOldest_length (c : TrackingCache) (h : c.entries ≠ []) :
    c.evictOldest.entries.length + 1 = c.entries.length := by
  unfold TrackingCache.evictOldest
  obtain ⟨k, t, hk⟩ := findOldest_isSome c.entries h
  rw [hk]
  exact length_mapDelete_of_mem _ _ (findOldest_mem _ _ _ hk)

theorem set_maxSize (c : TrackingCache) (t₀ : Nat) (cid tn : String) (v : TrackInfo) :
    (c.set t₀ cid tn v).maxSize = c.maxSize := by
  show (if c.entries.length ≥ c.maxSize then c.evictOldest else c).maxSize = c.maxSize
  split
  · exact evictOldest_maxSize c
  · rfl

theorem foldl_oldestStep_keep (rest : List (String × CacheEntry)) (k₀ : String) (t₀ : Nat)
    (h : ∀ e ∈ rest, ¬ e.2.timestamp < t₀) :
    rest.foldl oldestStep (some (k₀, t₀)) = some (k₀, t₀) := by
  induction rest with
  | nil => rfl
  | cons e es ih =>
    show es.foldl oldestStep (oldestStep (some (k₀, t₀)) e) = some (k₀, t₀)
    have : oldestStep (some (k₀, t₀)) e = some (k₀, t₀) := by
      unfold oldestStep
      dsimp only
      rw [if_neg (h e (List.mem_cons_self _ _))]
    rw [this]
    exact ih (fun x hx => h x (List.mem_cons_of_mem _ hx))

theorem seqEntries_keys (t : Nat) (items : List (String × String × TrackInfo)) :
    (seqEntries t items).map Prod.fst = items.map keyOf := by
  induction items generalizing t with
  | nil => rfl
  | cons it rest ih =>
    obtain ⟨cid, tn, d⟩ := it
    simp only [seqEntries, List.map_cons, ih]
    rfl

theorem seqEntries_length (t : Nat) (items : List (String × String × TrackInfo)) :
    (seqEntries t items).length = items.length := by
  induction items generalizing t with
  | nil => rfl
  | cons it rest ih =>
    obtain ⟨cid, tn, d⟩ := it
    simp only [seqEntries, List.length_cons, ih]

theorem setSeq_fill (items : List (String × String × TrackInfo)) (c : TrackingCache) (t : Nat)
    (hlen : c.entries.length + items.length ≤ c.maxSize)
    (hfresh : ∀ it ∈ items, keyOf it ∉ c.entries.map Prod.fst)
    (hnodup : (items.map keyOf).Nodup) :
    (setSeq c t items).entries = c.entries ++ seqEntries t items ∧
    (setSeq c t items).maxSize = c.maxSize := by
  induction items generalizing c t with
  | nil => simp [setSeq, seqEntries]
  | cons it rest ih =>
    obtain ⟨cid, tn, d⟩ := it
    have hlt : c.entries.length < c.maxSize := by
      simp only [List.length_cons] at hlen
      omega
    have happ : (c.set t cid tn d).entries = c.entries ++ [(buildKey cid tn, ⟨d, t⟩)] := by
      rw [set_entries_eq, if_neg (by omega)]
      exact mapSet_append_of_not_mem _ _ _ (hfresh _ (List.mem_cons_self _ _))
    have hmax := set_maxSize c t cid tn d
    simp only [List.map_cons, List.nodup_cons] at hnodup
    have hrec := ih (c.set t cid tn d) (t + 1)
      (by rw [happ, hmax]; simp only [List.length_append, List.length_singleton]
          simp only [List.length_cons] at hlen; omega)
      (by intro x hx
          rw [happ]
          simp only [List.map_append, List.mem_append, List.map_cons, List.map_nil]
          rintro (hmem | hmem)
          · exact hfresh x (List.mem_cons_of_mem _ hx) hmem
          · simp only [List.mem_singleton] at hmem
            apply hnodup.1
            have hx2 : keyOf x ∈ rest.map keyOf := List.mem_map_of_mem keyOf hx
            rw [hmem] at hx2
            exact hx2)
      hnodup.2
    constructor
    · show (setSeq (c.set t cid tn d) (t + 1) rest).entries = _
      rw [hrec.1, happ]
      simp [seqEntries, keyOf, buildKey]
    · show (setSeq (c.set t cid tn d) (t + 1) rest).maxSize = _
      rw [hrec.2, hmax]

theorem setSeq_append (c : TrackingCache) (t : Nat)
    (l₁ l₂ : List (String × String × TrackInfo)) :
    setSeq c t (l₁ ++ l₂) = setSeq (setSeq c t l₁) (t + l₁.length) l₂ := by
  induction l₁ generalizing c t with
  | nil => simp [setSeq]
  | cons it rest ih =>
    obtain ⟨cid, tn, d⟩ := it
    show setSeq (c.set t cid tn d) (t + 1) (rest ++ l₂) = _
    rw [ih]
    congr 1
    simp only [List.length_cons]
    omega

/-- C7 counterexample: with `maxSize = 2` and two entries present, a `set`
that merely replaces the existing key `b:2` — post-insert size 2, not
exceeding `maxSize` — still evicts the oldest entry `a:1`, contradicting the
claim that a replacing `Set` evicts nothing and that eviction happens exactly
when the post-insert size would exceed `maxSize`. -/
theorem cache_replace_evicts_counterexample :
    mapGet ((((⟨300000, 2, []⟩ : TrackingCache).set 0 "a" "1" tInfoEx1).set 1 "b" "2"
        tInfoEx1).entries) "a:1" = some ⟨tInfoEx1, 0⟩ ∧
    ((((⟨300000, 2, []⟩ : TrackingCache).set 0 "a" "1" tInfoEx1).set 1 "b" "2"
        tInfoEx1).set 2 "b" "2" tInfoEx2).entries.length = 1 ∧
    mapGet (((((⟨300000, 2, []⟩ : TrackingCache).set 0 "a" "1" tInfoEx1).set 1 "b" "2"
        tInfoEx1).set 2 "b" "2" tInfoEx2).entries) "a:1" = none := by
  exact ⟨rfl, rfl, rfl⟩

/-- C7 amended: every cache operation preserves `size ≤ maxSize` (for `set`,
provided `maxSize ≥ 1`); `set` evicts exactly when the PRE-insert size is at
least `maxSize` — in particular a `set` that replaces an existing key in a
full cache also evicts the single oldest entry — and below `maxSize` a `set`
is a plain insert-or-replace; inserting `maxSize + 1` distinct keys into an
empty cache leaves exactly `maxSize` entries, excluding the
earliest-inserted key. -/
theorem cache_size_invariant_and_eviction :
    (∀ (c : TrackingCache) (now : Nat) (cid tn : String) (d : TrackInfo),
      1 ≤ c.maxSize → c.entries.length ≤ c.maxSize →
      (c.set now cid tn d).entries.length ≤ c.maxSize) ∧
    (∀ (c : TrackingCache) (now : Nat) (cid tn : String),
      c.entries.length ≤ c.maxSize →
      (c.get now cid tn).2.entries.length ≤ c.maxSize) ∧
    (∀ (c : TrackingCache) (cid tn : String),
      c.entries.length ≤ c.maxSize →
      (c.invalidate cid tn).entries.length ≤ c.maxSize) ∧
    (∀ c : TrackingCache, c.clearAll.entries.length ≤ c.maxSize) ∧
    (∀ (c : TrackingCache) (now : Nat),
      c.entries.length ≤ c.maxSize →
      (c.cleanup now).entries.length ≤ c.maxSize) ∧
    (∀ (c : TrackingCache) (now : Nat) (cid tn : String) (d : TrackInfo),
      c.entries.length < c.maxSize →
      (c.set now cid tn d).entries = mapSet c.entries (buildKey cid tn) ⟨d, now⟩) ∧
    (∀ (ttl maxSize : Nat) (hd : String × String × TrackInfo)
        (tl : List (String × String × TrackInfo)),
      (hd :: tl).length = maxSize + 1 → 1 ≤ maxSize →
      ((hd :: tl).map keyOf).Nodup →
      (setSeq ⟨ttl, maxSize, []⟩ 0 (hd :: tl)).entries.map Prod.fst = tl.map keyOf ∧
      (setSeq ⟨ttl, maxSize, []⟩ 0 (hd :: tl)).entries.length = maxSize ∧
      mapGet (setSeq ⟨ttl, maxSize, []⟩ 0 (hd :: tl)).entries (keyOf hd) = none) := by
  refine ⟨?_, ?_, ?_, ?_, ?_, ?_, ?_⟩
  · intro c now cid tn d hmax h
    rw [set_entries_eq]
    split
    · rename_i hge
      have hne : c.entries ≠ [] := by
        intro he
        rw [he] at hge
        simp at hge
        omega
      have hev := evictOldest_length c hne
      rw [length_mapSet]
      split <;> omega
    · rename_i hge
      rw [length_mapSet]
      split <;> omega
  · intro c now cid tn h
    rw [get_eq]
    split
    · exact h
    · split
      · exact le_trans (mapDelete_length_le _ _) h
      · exact h
  · intro c cid tn h
    exact le_trans (mapDelete_length_le _ _) h
  · intro c
    simp [TrackingCache.clearAll]
  · intro c now h
    exact le_trans (List.length_filter_le _ _) h
  · intro c now cid tn d hlt
    rw [set_entries_eq, if_neg (by omega)]
  · intro ttl maxSize hd tl hlen hmax hnodup
    have htl : tl ≠ [] := by
      intro h
      rw [h] at hlen
      simp at hlen
      omega
    obtain ⟨front, lastIt, rfl⟩ : ∃ front lastIt, tl = front ++ [lastIt] :=
      ⟨tl.dropLast, tl.getLast htl, (List.dropLast_append_getLast htl).symm⟩
    obtain ⟨lc, ln, ld⟩ := lastIt
    have hcons : hd :: (front ++ [(lc, ln, ld)]) = (hd :: front) ++ [(lc, ln, ld)] := rfl
    rw [hcons, setSeq_append]
    have hfrontlen : front.length + 1 = maxSize := by
      simp only [List.length_cons, List.length_append, List.length_nil] at hlen
      omega
    have hheadnotin : keyOf hd ∉ (front ++ [(lc, ln, ld)]).map keyOf := by
      have := hnodup
      rw [List.map_cons, List.nodup_cons] at this
      exact this.1
    have hnodup2 := hnodup
    rw [hcons, List.map_append, List.nodup_append] at hnodup2
    obtain ⟨hnodupF, _, hdisj⟩ := hnodup2
    have hfill := setSeq_fill (hd :: front) ⟨ttl, maxSize, []⟩ 0
      (show ([] : List (String × CacheEntry)).length + (hd :: front).length ≤ maxSize by
        simp only [List.length_nil, List.length_cons]
        omega)
      (by intro it hit
          simp)
      hnodupF
    set inner := setSeq ⟨ttl, maxSize, []⟩ 0 (hd :: front) with hinner
    have hentries : inner.entries =
        (keyOf hd, ⟨hd.2.2, 0⟩) :: seqEntries 1 front := by
      rw [hfill.1]
      obtain ⟨c1, c2, c3⟩ := hd
      simp [seqEntries, keyOf, buildKey]
    have hmaxI : inner.maxSize = maxSize := hfill.2
    have hlenI : inner.entries.length = maxSize := by
      rw [hentries]
      simp only [List.length_cons, seqEntries_length]
      omega
    have hstep : setSeq inner (0 + (hd :: front).length) [(lc, ln, ld)] =
        inner.set (0 + (hd :: front).length) lc ln ld := rfl
    rw [hstep]
    have hset : (inner.set (0 + (hd :: front).length) lc ln ld).entries =
        mapSet inner.evictOldest.entries (buildKey lc ln)
          ⟨ld, 0 + (hd :: front).length⟩ := by
      rw [set_entries_eq, if_pos (by omega)]
    have hevict : inner.evictOldest.entries = seqEntries 1 front := by
      unfold TrackingCache.evictOldest
      rw [hentries]
      have hfind : findOldest ((keyOf hd, ⟨hd.2.2, 0⟩) :: seqEntries 1 front) =
          some (keyOf hd, 0) := by
        show (seqEntries 1 front).foldl oldestStep
          (oldestStep none (keyOf hd, ⟨hd.2.2, 0⟩)) = _
        exact foldl_oldestStep_keep _ _ _ (fun e he => by dsimp only; omega)
      rw [hfind]
      simp [mapDelete]
    have hfreshlast : buildKey lc ln ∉ (seqEntries 1 front).map Prod.fst := by
      rw [seqEntries_keys]
      intro hmem
      exact hdisj (List.mem_cons_of_mem _ hmem)
        (by simp [keyOf, buildKey])
    have hfinal : (inner.set (0 + (hd :: front).length) lc ln ld).entries =
        seqEntries 1 front ++ [(buildKey lc ln, ⟨ld, 0 + (hd :: front).length⟩)] := by
      rw [hset, hevict, mapSet_append_of_not_mem _ _ _ hfreshlast]
    refine ⟨?_, ?_, ?_⟩
    · rw [hfinal, List.map_append, seqEntries_keys, List.map_append]
      simp [keyOf]
    · rw [hfinal]
      simp only [List.length_append, seqEntries_length, List.length_singleton]
      omega
    · rw [hfinal]
      apply mapGet_eq_none_of_not_mem
      rw [List.map_append, seqEntries_keys]
      intro hmem
      apply hheadnotin
      rw [List.map_append]
      rcases List.mem_append.1 hmem with hh | hh
      · exact List.mem_append.2 (Or.inl hh)
      · refine List.mem_append.2 (Or.inr ?_)
        simpa [keyOf] using hh

/-- Witness for C7's amended statement: three distinct keys into a
2-entry cache leave the two later keys and evict the first. -/
theorem cache_size_invariant_and_eviction_witness :
    (setSeq ⟨1000, 2, []⟩ 0
        [("a", "1", tInfoEx1), ("b", "2", tInfoEx1), ("c", "3", tInfoEx2)]).entries.map
      Prod.fst = [("b", "2", tInfoEx1), ("c", "3", tInfoEx2)].map keyOf ∧
    mapGet (setSeq ⟨1000, 2, []⟩ 0
        [("a", "1", tInfoEx1), ("b", "2", tInfoEx1), ("c", "3", tInfoEx2)]).entries
      (keyOf ("a", "1", tInfoEx1)) = none := by
  have h := cache_size_invariant_and_eviction.2.2.2.2.2.2 1000 2 ("a", "1", tInfoEx1)
    [("b", "2", tInfoEx1), ("c", "3", tInfoEx2)] (by decide) (by decide) (by decide)
  exact ⟨h.1, h.2.2⟩

/-! ## Serialization lemmas for the checksum claims -/

theorem stringifyPlainList_eq (xs : List JVal) :
    stringifyPlainList xs = xs.map stringifyPlain := by
  induction xs with
  | nil => rfl
  | cons x t ih => simp only [stringifyPlainList, ih, List.map_cons]

theorem stringifyPlainEntries_eq (l : List (String × JVal)) :
    stringifyPlainEntries l = l.map (fun p => quoteStr p.1 ++ ":" ++ stringifyPlain p.2) := by
  induction l with
  | nil => rfl
  | cons p t ih =>
    obtain ⟨k, v⟩ := p
    simp only [stringifyPlainEntries, ih, List.map_cons]

theorem canonList_eq (xs : List JVal) : canonList xs = xs.map canon := by
  induction xs with
  | nil => rfl
  | cons x t ih => simp only [canonList, ih, List.map_cons]

theorem canonEntries_eq (l : List (String × JVal)) :
    canonEntries l = l.map (fun p => (p.1, canon p.2)) := by
  induction l with
  | nil => rfl
  | cons p t ih =>
    obtain ⟨k, v⟩ := p
    simp only [canonEntries, ih, List.map_cons]

theorem scrubList_eq (xs : List JVal) : scrubList xs = xs.map scrub := by
  induction xs with
  | nil => rfl
  | cons x t ih => simp only [scrubList, ih, List.map_cons]

theorem scrubEntries_eq (l : List (String × JVal)) :
    scrubEntries l = l.map (fun p => (p.1, scrub p.2)) := by
  induction l with
  | nil => rfl
  | cons p t ih =>
    obtain ⟨k, v⟩ := p
    simp only [scrubEntries, ih, List.map_cons]

theorem wfBList_iff (xs : List JVal) :
    wfBList xs = true ↔ ∀ x ∈ xs, wfB x = true := by
  induction xs with
  | nil => simp [wfBList]
  | cons x t ih =>
    show (wfB x && wfBList t) = true ↔ _
    rw [Bool.and_eq_true, ih]
    simp

theorem wfBEntries_iff (l : List (String × JVal)) :
    wfBEntries l = true ↔ ∀ p ∈ l, wfB p.2 = true := by
  induction l with
  | nil => simp [wfBEntries]
  | cons p t ih =>
    obtain ⟨k, v⟩ := p
    show (wfB v && wfBEntries t) = true ↔ _
    rw [Bool.and_eq_true, ih]
    simp

theorem wfB_obj_iff (l : List (String × JVal)) :
    wfB (jobj l) = true ↔ (l.map Prod.fst).Nodup ∧ ∀ p ∈ l, wfB p.2 = true := by
  show (nodupKeys (l.map Prod.fst) && wfBEntries l) = true ↔ _
  rw [Bool.and_eq_true, nodupKeys_iff, wfBEntries_iff]

/-- Unfolding equation for `stringifySorted` on arrays, in `map` form. -/
theorem stringifySorted_arr (xs : List JVal) :
    stringifySorted (jarr xs) =
      "[" ++ String.intercalate "," (xs.map stringifySorted) ++ "]" := by
  rw [stringifySorted]
  rw [List.attach_map_val]

/-- Unfolding equation for `stringifySorted` on objects. -/
theorem stringifySorted_obj (l : List (String × JVal)) :
    stringifySorted (jobj l) =
      "\x7b" ++ String.intercalate ","
        ((sortedKeysOf l).map (fun k => quoteStr k ++ ":" ++ stringifySorted (lookupD k l)))
        ++ "\x7d" := by
  rw [stringifySorted]

/-- `orderedInsert` by key commutes with a value-only map. -/
theorem orderedInsert_map_value (f : JVal → JVal) (p : String × JVal)
    (l : List (String × JVal)) :
    (List.orderedInsert keyLe p l).map (fun q => (q.1, f q.2)) =
      List.orderedInsert keyLe (p.1, f p.2) (l.map (fun q => (q.1, f q.2))) := by
  induction l with
  | nil => rfl
  | cons q t ih =>
    by_cases h : keyLe p q
    · have h2 : keyLe (p.1, f p.2) (q.1, f q.2) := h
      simp only [List.orderedInsert, if_pos h, if_pos h2, List.map_cons]
    · have h2 : ¬ keyLe (p.1, f p.2) (q.1, f q.2) := h
      simp only [List.orderedInsert, if_neg h, if_neg h2, List.map_cons, ih]

/-- `insertionSort` by key commutes with a value-only map. -/
theorem insertionSort_map_value (f : JVal → JVal) (l : List (String × JVal)) :
    (List.insertionSort keyLe l).map (fun q => (q.1, f q.2)) =
      List.insertionSort keyLe (l.map (fun q => (q.1, f q.2))) := by
  induction l with
  | nil => rfl
  | cons p t ih =>
    rw [List.insertionSort, List.map_cons, List.insertionSort, ← ih,
      orderedInsert_map_value]

/-- Projecting the keys of an `orderedInsert` by key. -/
theorem orderedInsert_keys (p : String × JVal) (l : List (String × JVal)) :
    (List.orderedInsert keyLe p l).map Prod.fst =
      List.orderedInsert strLeRel p.1 (l.map Prod.fst) := by
  induction l with
  | nil => rfl
  | cons q t ih =>
    by_cases h : keyLe p q
    · have h2 : strLeRel p.1 q.1 := h
      simp only [List.orderedInsert, if_pos h, if_pos h2, List.map_cons]
    · have h2 : ¬ strLeRel p.1 q.1 := h
      simp only [List.orderedInsert, if_neg h, if_neg h2, List.map_cons, ih]

/-- The sorted key list of an object is the key projection of its sorted
entry list. -/
theorem insertionSort_keys (l : List (String × JVal)) :
    (List.insertionSort keyLe l).map Prod.fst = sortedKeysOf l := by
  unfold sortedKeysOf
  induction l with
  | nil => rfl
  | cons p t ih =>
    rw [List.insertionSort, List.map_cons, List.insertionSort, ← ih,
      orderedInsert_keys]

theorem lookupD_eq_of_mem (l : List (String × JVal)) (k : String) (v : JVal)
    (hnodup : (l.map Prod.fst).Nodup) (hmem : (k, v) ∈ l) : lookupD k l = v := by
  induction l with
  | nil => simp at hmem
  | cons p t ih =>
    obtain ⟨k₁, v₁⟩ := p
    simp only [List.map_cons, List.nodup_cons] at hnodup
    rcases List.mem_cons.1 hmem with h | h
    · injection h with h1 h2
      subst h1
      subst h2
      show (if k = k then v else lookupD k t) = v
      rw [if_pos rfl]
    · have hk : k₁ ≠ k := by
        intro he
        subst he
        exact hnodup.1 (List.mem_map_of_mem Prod.fst h)
      show (if k₁ = k then v₁ else lookupD k t) = v
      rw [if_neg hk]
      exact ih hnodup.2 h

theorem lookupD_mem (l : List (String × JVal)) (k : String)
    (h : k ∈ l.map Prod.fst) : (k, lookupD k l) ∈ l := by
  induction l with
  | nil => simp at h
  | cons p t ih =>
    obtain ⟨k₁, v₁⟩ := p
    by_cases hk : k₁ = k
    · subst hk
      have hl : lookupD k₁ ((k₁, v₁) :: t) = v₁ := by
        show (if k₁ = k₁ then v₁ else lookupD k₁ t) = v₁
        rw [if_pos rfl]
      rw [hl]
      exact List.mem_cons_self _ _
    · have hmem : k ∈ t.map Prod.fst := by
        rcases List.mem_cons.1 h with h1 | h1
        · exact absurd h1.symm hk
        · exact h1
      right
      show (k, if k₁ = k then v₁ else lookupD k t) ∈ t
      rw [if_neg hk]
      exact ih hmem

/-- The replacer-based serialization of the source equals the plain JSON
serialization of the canonical (keys-sorted-at-every-depth) form, on any
value a JS runtime can produce (objects have no duplicate keys). -/
theorem stringifySorted_eq_plain_canon :
    ∀ v, wfB v = true → stringifySorted v = stringifyPlain (canon v) := by
  refine jvalInduction
    (fun v => wfB v = true → stringifySorted v = stringifyPlain (canon v))
    ?_ ?_ ?_ ?_ ?_ ?_ ?_
  · intro _
    simp only [stringifySorted]
    rfl
  · intro b _
    simp only [stringifySorted]
    rfl
  · intro n _
    simp only [stringifySorted]
    rfl
  · intro s _
    simp only [stringifySorted]
    rfl
  · intro es _
    simp only [stringifySorted]
    rfl
  · intro xs ih h
    rw [stringifySorted_arr]
    rw [show stringifyPlain (canon (jarr xs)) =
      "[" ++ String.intercalate "," (stringifyPlainList (canonList xs)) ++ "]" from rfl]
    rw [stringifyPlainList_eq, canonList_eq, List.map_map]
    have hcong : xs.map stringifySorted = xs.map (stringifyPlain ∘ canon) :=
      List.map_congr_left (fun x hx => ih x hx ((wfBList_iff xs).1 h x hx))
    rw [hcong]
  · intro l ih h
    obtain ⟨hnodup, hvals⟩ := (wfB_obj_iff l).1 h
    rw [stringifySorted_obj]
    rw [show stringifyPlain (canon (jobj l)) =
      "\x7b" ++ String.intercalate ","
        (stringifyPlainEntries (List.insertionSort keyLe (canonEntries l))) ++ "\x7d" from rfl]
    rw [canonEntries_eq, ← insertionSort_map_value, stringifyPlainEntries_eq,
      List.map_map, ← insertionSort_keys, List.map_map]
    have hlist : (List.insertionSort keyLe l).map
        ((fun k => quoteStr k ++ ":" ++ stringifySorted (lookupD k l)) ∘ Prod.fst) =
      (List.insertionSort keyLe l).map
        ((fun p => quoteStr p.1 ++ ":" ++ stringifyPlain p.2) ∘
          (fun q => (q.1, canon q.2))) := by
      apply List.map_congr_left
      intro p hp
      have hpl : p ∈ l := (List.perm_insertionSort keyLe l).subset hp
      have hlk : lookupD p.1 l = p.2 := lookupD_eq_of_mem l p.1 p.2 hnodup hpl
      show quoteStr p.1 ++ ":" ++ stringifySorted (lookupD p.1 l) =
        quoteStr p.1 ++ ":" ++ stringifyPlain (canon p.2)
      rw [hlk, ih p hpl (hvals p hpl)]
    rw [hlist]

theorem lookupD_map_value (f : JVal → JVal) (hf : f jnull = jnull) (k : String)
    (l : List (String × JVal)) :
    lookupD k (l.map (fun p => (p.1, f p.2))) = f (lookupD k l) := by
  induction l with
  | nil => exact hf.symm
  | cons p t ih =>
    obtain ⟨k₁, v₁⟩ := p
    by_cases hk : k₁ = k
    · show (if k₁ = k then f v₁ else lookupD k (t.map _)) = f (if k₁ = k then v₁ else lookupD k t)
      rw [if_pos hk, if_pos hk]
    · show (if k₁ = k then f v₁ else lookupD k (t.map _)) = f (if k₁ = k then v₁ else lookupD k t)
      rw [if_neg hk, if_neg hk]
      exact ih

theorem sortedKeysOf_map_value (f : JVal → JVal) (l : List (String × JVal)) :
    sortedKeysOf (l.map (fun p => (p.1, f p.2))) = sortedKeysOf l := by
  unfold sortedKeysOf
  rw [List.map_map]
  rfl

/-- Scrubbing the `carrierSpecificData` maps does not change the plain JSON
serialization: a `Map` serializes as the empty object either way. -/
theorem stringifyPlain_scrub :
    ∀ v, stringifyPlain (scrub v) = stringifyPlain v := by
  refine jvalInduction (fun v => stringifyPlain (scrub v) = stringifyPlain v)
    rfl (fun _ => rfl) (fun _ => rfl) (fun _ => rfl) (fun _ => rfl) ?_ ?_
  · intro xs ih
    show "[" ++ String.intercalate "," (stringifyPlainList (scrubList xs)) ++ "]" =
      "[" ++ String.intercalate "," (stringifyPlainList xs) ++ "]"
    rw [scrubList_eq, stringifyPlainList_eq, stringifyPlainList_eq, List.map_map]
    have hcong : xs.map (stringifyPlain ∘ scrub) = xs.map stringifyPlain :=
      List.map_congr_left (fun x hx => ih x hx)
    rw [hcong]
  · intro l ih
    show "\x7b" ++ String.intercalate "," (stringifyPlainEntries (scrubEntries l)) ++ "\x7d" =
      "\x7b" ++ String.intercalate "," (stringifyPlainEntries l) ++ "\x7d"
    rw [scrubEntries_eq, stringifyPlainEntries_eq, stringifyPlainEntries_eq, List.map_map]
    have hcong : l.map ((fun p => quoteStr p.1 ++ ":" ++ stringifyPlain p.2) ∘
        (fun p => (p.1, scrub p.2))) =
        l.map (fun p => quoteStr p.1 ++ ":" ++ stringifyPlain p.2) := by
      apply List.map_congr_left
      intro p hp
      show quoteStr p.1 ++ ":" ++ stringifyPlain (scrub p.2) = _
      rw [ih p hp]
    rw [hcong]

/-- Scrubbing the `carrierSpecificData` maps does not change the checksum
serialization either. -/
theorem stringifySorted_scrub :
    ∀ v, stringifySorted (scrub v) = stringifySorted v := by
  refine jvalInduction (fun v => stringifySorted (scrub v) = stringifySorted v)
    rfl (fun _ => rfl) (fun _ => rfl) (fun _ => rfl) ?_ ?_ ?_
  · intro es
    show stringifySorted (jmap []) = stringifySorted (jmap es)
    simp only [stringifySorted]
  · intro xs ih
    show stringifySorted (jarr (scrubList xs)) = _
    rw [stringifySorted_arr, stringifySorted_arr, scrubList_eq, List.map_map]
    have hcong : xs.map (stringifySorted ∘ scrub) = xs.map stringifySorted :=
      List.map_congr_left (fun x hx => ih x hx)
    rw [hcong]
  · intro l ih
    show stringifySorted (jobj (scrubEntries l)) = _
    rw [stringifySorted_obj, stringifySorted_obj, scrubEntries_eq, sortedKeysOf_map_value]
    have hcong : (sortedKeysOf l).map
        (fun k => quoteStr k ++ ":" ++
          stringifySorted (lookupD k (l.map (fun p => (p.1, scrub p.2))))) =
        (sortedKeysOf l).map
          (fun k => quoteStr k ++ ":" ++ stringifySorted (lookupD k l)) := by
      apply List.map_congr_left
      intro k hk
      have hkl : k ∈ l.map Prod.fst := by
        unfold sortedKeysOf at hk
        exact (List.perm_insertionSort strLeRel (l.map Prod.fst)).subset hk
      have hmem := lookupD_mem l k hkl
      rw [lookupD_map_value scrub rfl]
      rw [ih (k, lookupD k l) hmem]
    rw [hcong]

theorem sha256Hex_ne_empty (bytes : List Nat) : sha256Hex bytes ≠ "" := by
  intro h
  have hlen := congrArg (fun s => s.data.length) h
  simp [sha256Hex, hexWord] at hlen

theorem computeChecksum_ne_empty (t : TrackInfo) :
    TrackingMonitorJob.computeChecksum t ≠ "" :=
  sha256Hex_ne_empty _

theorem computeChecksum_scrub (t : TrackInfo) :
    TrackingMonitorJob.computeChecksum t = TrackingMonitorJob.computeChecksum t.scrubData := by
  unfold TrackingMonitorJob.computeChecksum
  unfold sha256HexOfString
  congr 2
  show stringifySorted (jarr t.events) = stringifySorted (jarr (t.events.map scrub))
  rw [← scrubList_eq]
  exact (stringifySorted_scrub (jarr t.events)).symm

theorem payload_scrub (t : TrackInfo) :
    stringifyPlain t.toJVal = stringifyPlain t.scrubData.toJVal := by
  unfold TrackInfo.toJVal TrackInfo.scrubData
  dsimp only
  rw [show ∀ L, stringifyPlain (jobj L) =
    "\x7b" ++ String.intercalate "," (stringifyPlainEntries L) ++ "\x7d" from fun L => rfl]
  rw [show ∀ L, stringifyPlain (jobj L) =
    "\x7b" ++ String.intercalate "," (stringifyPlainEntries L) ++ "\x7d" from fun L => rfl]
  rw [stringifyPlainEntries_eq, stringifyPlainEntries_eq]
  simp only [List.map_cons, List.map_nil]
  have h1 : stringifyPlain (jarr (t.events.map scrub)) = stringifyPlain (jarr t.events) := by
    rw [← scrubList_eq]
    exact stringifyPlain_scrub (jarr t.events)
  have h2 : stringifyPlain (scrub t.sender) = stringifyPlain t.sender :=
    stringifyPlain_scrub t.sender
  have h3 : stringifyPlain (scrub t.recipient) = stringifyPlain t.recipient :=
    stringifyPlain_scrub t.recipient
  rw [h1, h2, h3]
  rfl

/-! ## C8: checksum canonicality -/

/-- C8: the delivery checksum equals the SHA-256 hex digest of the plain
JSON serialization of the event sequence with object keys sorted
lexicographically at every depth; hence two well-formed `TrackInfo` values
whose events coincide up to reordering of object keys — i.e. have the same
canonical form — hash identically, and the checksum depends only on
`events`, never on sender, recipient or other fields. -/
theorem computeChecksum_canonicality (t₁ t₂ : TrackInfo)
    (h₁ : wfB (jarr t₁.events) = true) (h₂ : wfB (jarr t₂.events) = true) :
    TrackingMonitorJob.computeChecksum t₁ =
      sha256HexOfString (stringifyPlain (canon (jarr t₁.events))) ∧
    (canon (jarr t₁.events) = canon (jarr t₂.events) →
      TrackingMonitorJob.computeChecksum t₁ = TrackingMonitorJob.computeChecksum t₂) ∧
    (t₁.events = t₂.events →
      TrackingMonitorJob.computeChecksum t₁ = TrackingMonitorJob.computeChecksum t₂) := by
  have k₁ := stringifySorted_eq_plain_canon (jarr t₁.events) h₁
  have k₂ := stringifySorted_eq_plain_canon (jarr t₂.events) h₂
  refine ⟨?_, ?_, ?_⟩
  · unfold TrackingMonitorJob.computeChecksum
    rw [k₁]
  · intro hc
    unfold TrackingMonitorJob.computeChecksum
    rw [k₁, k₂, hc]
  · intro he
    unfold TrackingMonitorJob.computeChecksum
    rw [he]

/-- Witness for C8: two events that differ only in object key order have the
same checksum. -/
theorem computeChecksum_canonicality_witness :
    wfB (jarr tInfoEx1.events) = true ∧
    canon (jarr tInfoEx1.events) = canon (jarr tInfoEx2.events) ∧
    TrackingMonitorJob.computeChecksum tInfoEx1 =
      TrackingMonitorJob.computeChecksum tInfoEx2 :=
  ⟨rfl, rfl, (computeChecksum_canonicality tInfoEx1 tInfoEx2 rfl rfl).2.1 rfl⟩

/-! ## C10: carrierSpecificData is invisible to checksum and payload -/

/-- C10: two `TrackInfo` values differing only in their `carrierSpecificData`
maps (anywhere: top level or nested in events) produce the same checksum and
byte-identical serialized `trackInfo` payloads, because `JSON.stringify`
renders every JS `Map` as the empty object; consequently the serialized
payload always equals that of the scrubbed track info (every
`carrierSpecificData` an empty object), and a change confined to
`carrierSpecificData` never triggers a delivery: a monitor invocation whose
stored checksum matches the old value takes the no-change branch and
enqueues nothing. -/
theorem carrierSpecificData_invisible (t₁ t₂ : TrackInfo)
    (hsc : t₁.scrubData = t₂.scrubData) :
    TrackingMonitorJob.computeChecksum t₁ = TrackingMonitorJob.computeChecksum t₂ ∧
    stringifyPlain t₁.toJVal = stringifyPlain t₂.toJVal ∧
    (∀ t : TrackInfo, stringifyPlain t.toJVal = stringifyPlain t.scrubData.toJVal) ∧
    (∀ (jd : TrackingMonitorJobData) (w : WebhookRegistration) (now : Nat)
        (tres : Except String TrackInfo) (enqF : Option String),
      w.active = true → ¬ now > w.expirationTime →
      w.lastChecksum = some (TrackingMonitorJob.computeChecksum t₁) →
      TrackingMonitorJob.process jd ⟨some w, now, true, some t₂, tres, enqF⟩ =
        ([.updateWebhook jd.webhookRegistrationId { lastCheckedAt := some now }], false)) := by
  have hck : TrackingMonitorJob.computeChecksum t₁ = TrackingMonitorJob.computeChecksum t₂ := by
    rw [computeChecksum_scrub t₁, computeChecksum_scrub t₂, hsc]
  have hpay : stringifyPlain t₁.toJVal = stringifyPlain t₂.toJVal := by
    rw [payload_scrub t₁, payload_scrub t₂, hsc]
  refine ⟨hck, hpay, payload_scrub, ?_⟩
  intro jd w now tres enqF hactive hexp hlck
  unfold TrackingMonitorJob.process
  dsimp only
  rw [if_neg (by simp [hactive]), if_neg hexp, if_neg (by simp)]
  unfold monitorTail
  dsimp only
  rw [hlck]
  dsimp only
  have hne : (TrackingMonitorJob.computeChecksum t₁ != "") = true := by
    simp only [bne_iff_ne, ne_eq]
    exact computeChecksum_ne_empty t₁
  have hbeq : (TrackingMonitorJob.computeChecksum t₁ ==
      TrackingMonitorJob.computeChecksum t₂) = true := by
    rw [beq_iff_eq]
    exact hck
  rw [if_pos (by simp [hne, hbeq])]
  rfl

/-- Witness for C10 at two concrete `TrackInfo` values differing only in
their `carrierSpecificData` maps. -/
theorem carrierSpecificData_invisible_witness :
    tInfoEx3.scrubData = tInfoEx4.scrubData ∧
    TrackingMonitorJob.computeChecksum tInfoEx3 =
      TrackingMonitorJob.computeChecksum tInfoEx4 ∧
    stringifyPlain tInfoEx3.toJVal = stringifyPlain tInfoEx4.toJVal :=
  ⟨rfl, (carrierSpecificData_invisible tInfoEx3 tInfoEx4 rfl).1,
    (carrierSpecificData_invisible tInfoEx3 tInfoEx4 rfl).2.1⟩

end DeliveryTracker
